import Mathlib

/-!
# Verification of the ACCLIMATE fragility computation engine

Shallow embedding of the fragility computation engine
(`backend/fragility/fragility_computer.py`) and the HBOM tree reconstruction
(`backend/hbom/hbom_preparers.py`) of the `final_ACCLIMATE` repository,
together with proofs settling the frozen claims about it.

Numeric values held by the Python code are IEEE doubles; this embedding models
them as real numbers (`ℝ`), with validity hypotheses marking out the regime in
which the Python arithmetic produces ordinary real numbers (no NaN or
infinity).  The special float values needed by the NaN-propagation claim are
modelled separately by an explicit `RVal` type.
-/

namespace Acclimate

/-! ## Association-list helpers

Python `dict`s are insertion-ordered maps with unique keys; the engine only
reads them through `get`/membership/iteration, which we model through
association lists with `List.lookup`. -/

/-- `d.get(k, default)` on a Python dict. -/
def lookupD (l : List (String × ℝ)) (k : String) (d : ℝ) : ℝ :=
  (l.lookup k).getD d

/-- Python `max(xs)` over a list: `none` exactly when the list is empty
(where Python raises `ValueError`). -/
def listMax : List ℝ → Option ℝ
  | [] => none
  | x :: xs => some (xs.foldl max x)

/-! ## Distribution Evaluator (`FragilityComputer._compute_distribution_curve`)

`scipy.stats.norm.cdf`, `scipy.stats.weibull_min.cdf` and
`scipy.special.expit` are mathematical library routines; we embed them by the
functions they compute. -/

/-- Parameters of a fragility model: the Python `params` dict. -/
abbrev Params := List (String × ℝ)

/-- `params.get(k, default)`. -/
def getParam (ps : Params) (k : String) (d : ℝ) : ℝ :=
  (ps.lookup k).getD d

/-- `"k" in params`. -/
def hasParam (ps : Params) (k : String) : Bool :=
  (ps.lookup k).isSome

/-- `scipy.stats.norm.cdf`: the standard normal cumulative distribution
function. -/
noncomputable def normCDF (z : ℝ) : ℝ :=
  ProbabilityTheory.cdf (ProbabilityTheory.gaussianReal 0 1) z

/-- The `z`-score computed by the lognormal branch of
`_compute_distribution_curve`: from `mu`/`sigma` when both are supplied,
otherwise from `median`/`dispersion` (defaults 100.0 / 0.3).
`1e-9` guards `log 0`. -/
noncomputable def lognormalZ (ps : Params) (x : ℝ) : ℝ :=
  if hasParam ps "mu" ∧ hasParam ps "sigma" then
    (Real.log (x + 1e-9) - getParam ps "mu" 0) / getParam ps "sigma" 0
  else
    (Real.log (x + 1e-9) - Real.log (getParam ps "median" 100)) /
      getParam ps "dispersion" 0.3

/-- `scipy.stats.weibull_min.cdf x shape (scale := scale)`:
`1 - exp (-(x/scale)^shape)` on the support `[0, ∞)`, `0` below it. -/
noncomputable def weibullCDF (shape scale x : ℝ) : ℝ :=
  if x < 0 then 0 else 1 - Real.exp (-((x / scale) ^ shape))

/-- `scipy.special.expit`: the logistic sigmoid `1 / (1 + exp (-t))`. -/
noncomputable def expit (t : ℝ) : ℝ :=
  1 / (1 + Real.exp (-t))

/-- `FragilityComputer._compute_distribution_curve`: apply the named fragility
distribution pointwise to the climate series; an unknown model yields a zero
series of matching length (with a logged warning). -/
noncomputable def computeDistributionCurve (model : String) (ps : Params)
    (xs : List ℝ) : List ℝ :=
  if model = "lognormal" then
    xs.map fun x => normCDF (lognormalZ ps x)
  else if model = "weibull" then
    xs.map fun x => weibullCDF (getParam ps "shape" 2) (getParam ps "scale" 100) x
  else if model = "logistic" then
    xs.map fun x => expit (getParam ps "slope" 0.5 * (x - getParam ps "mid_point" 50))
  else
    xs.map fun _ => 0

/-! ### Elementary facts about the evaluator -/

theorem normCDF_nonneg (z : ℝ) : 0 ≤ normCDF z :=
  ProbabilityTheory.cdf_nonneg _ z

theorem normCDF_le_one (z : ℝ) : normCDF z ≤ 1 :=
  ProbabilityTheory.cdf_le_one _ z

theorem normCDF_mono : Monotone normCDF := fun _ _ h =>
  ProbabilityTheory.monotone_cdf _ h

theorem expit_nonneg (t : ℝ) : 0 ≤ expit t := by
  unfold expit
  positivity

theorem expit_le_one (t : ℝ) : expit t ≤ 1 := by
  unfold expit
  rw [div_le_one (by positivity)]
  nlinarith [Real.exp_pos (-t)]

theorem expit_mono : Monotone expit := by
  intro a b hab
  unfold expit
  have h1 : Real.exp (-b) ≤ Real.exp (-a) := Real.exp_le_exp.mpr (by linarith)
  have h2 : (0:ℝ) < 1 + Real.exp (-b) := by positivity
  have h3 : (0:ℝ) < 1 + Real.exp (-a) := by positivity
  rw [div_le_div_iff h3 h2]
  nlinarith

theorem weibullCDF_nonneg (shape scale x : ℝ) (hscale : 0 < scale) :
    0 ≤ weibullCDF shape scale x := by
  unfold weibullCDF
  split
  · exact le_refl 0
  · next hx =>
    have hb : 0 ≤ x / scale := div_nonneg (not_lt.mp hx) hscale.le
    have ht : 0 ≤ (x / scale) ^ shape := Real.rpow_nonneg hb shape
    have he : Real.exp (-((x / scale) ^ shape)) ≤ 1 := by
      calc Real.exp (-((x / scale) ^ shape)) ≤ Real.exp 0 :=
            Real.exp_le_exp.mpr (by linarith)
        _ = 1 := Real.exp_zero
    linarith

theorem weibullCDF_le_one (shape scale x : ℝ) : weibullCDF shape scale x ≤ 1 := by
  unfold weibullCDF
  split
  · norm_num
  · nlinarith [Real.exp_pos (-((x / scale) ^ shape))]

/-! ## Data model

`GridCurve` is the per (component, hazard, variable, grid-cell) record the
computer writes; `HazardBinding` is one entry of a node's `hazards` dict;
`ComponentNode` is one node of the reconstructed HBOM tree (bookkeeping
fields `parent_uuid`/`children_uuids` already stripped). -/

structure GridCurve where
  x_values : List ℝ
  fc_values : List ℝ
  final_pof : ℝ

structure HazardBinding where
  fragility_model : Option String
  fragility_params : Params
  climate_variable : Option String
  conditions : List (String × String)
  priority : ℝ
  source : String
  fragility_curves : List (String × List GridCurve)

/-- One grid cell of the prepared climate dataset; the computer reads only its
`climate` mapping (variable name → time-aligned series). -/
structure GridCell where
  climate : List (String × List ℝ)

/-- The prepared climate dataset consumed by the computer.  (`variables'`
stands for the dataset's `variables` key; `variables` is reserved in Lean.) -/
structure PreparedData where
  variables' : List String
  times : List String
  data : List GridCell

/-- Non-hierarchical fields of a tree node. -/
structure NodeCore where
  uuid : String
  label : String
  component_type : String
  canonical_component_type : Option String
  level : Option Int
  node_path : String
  metadata : Option String
  hazards : List (String × HazardBinding)
  pof_by_var : List (String × ℝ)
  pof : ℝ

inductive ComponentNode where
  | mk (core : NodeCore) (subcomponents : List ComponentNode)

def ComponentNode.core : ComponentNode → NodeCore
  | .mk c _ => c

def ComponentNode.subcomponents : ComponentNode → List ComponentNode
  | .mk _ s => s

/-- Python truthiness of an optional string: `None` and `""` are falsy. -/
def truthy : Option String → Option String
  | some s => if s = "" then none else some s
  | none => none

/-! ## Orchestrator (`FragilityComputer`) -/

/-- The inner grid loop of `_compute_for_component` for one applicable
variable: one `GridCurve` per grid cell, in grid order.  An absent or empty
climate series yields the `[0.0]` fallback curve. -/
noncomputable def computeCurvesForVar (model : String) (ps : Params)
    (gridData : List GridCell) (varName : String) : List GridCurve :=
  gridData.map fun grid =>
    let climateArray := (grid.climate.lookup varName).getD []
    if climateArray = [] then
      { x_values := [0], fc_values := [0], final_pof := 0 }
    else
      let fc := computeDistributionCurve model ps climateArray
      { x_values := climateArray, fc_values := fc,
        final_pof := (fc.getLast?).getD 0 }

/-- Which dataset variables a binding applies to: all of them when
`climate_variable` is falsy, else only the matching one
(`if target_climate_var and var_name != target_climate_var: continue`). -/
def applicableVars (climateVars : List String) (target : Option String) :
    List String :=
  climateVars.filter fun v =>
    match truthy target with
    | some t => v = t
    | none => true

/-- Step 1 of `_compute_for_component` (leaf computation): when the node has a
truthy, non-`"inherit"` fragility model for the hazard, compute
`fragility_curves` per applicable variable and the grid-reduced own
`pof_by_var` (max `final_pof` across grids, `0.0` when there are no grids);
otherwise leave the hazards untouched and produce an empty own map.
Returns (updated hazards dict, own pof_by_var). -/
noncomputable def leafComputation (hazard : String) (climateVars : List String)
    (gridData : List GridCell) (hazards : List (String × HazardBinding)) :
    List (String × HazardBinding) × List (String × ℝ) :=
  match hazards.lookup hazard with
  | none => (hazards, [])
  | some b =>
    match truthy b.fragility_model with
    | none => (hazards, [])
    | some m =>
      if m = "inherit" then (hazards, [])
      else
        let vars := applicableVars climateVars b.climate_variable
        let curvesByVar := vars.map fun v =>
          (v, computeCurvesForVar m b.fragility_params gridData v)
        let pofByVar := vars.map fun v =>
          (v, (listMax ((computeCurvesForVar m b.fragility_params gridData v).map
                GridCurve.final_pof)).getD 0)
        (hazards.map fun p =>
            if p.1 = hazard then (hazard, { b with fragility_curves := curvesByVar })
            else p,
         pofByVar)

/-- Step 3 of `_compute_for_component`: combine the node's own per-variable
PoF with its children's already-combined maps by the series-failure rule, over
the union of all variable names. -/
def unionVars {α : Type} (own : List (String × α))
    (childPofs : List (List (String × α))) : List String :=
  (own.map Prod.fst ++ (childPofs.map fun cp => cp.map Prod.fst).join).dedup

def combineStep (own : List (String × ℝ)) (childPofs : List (List (String × ℝ))) :
    List (String × ℝ) :=
  (unionVars own childPofs).map fun v =>
    let own_pof := lookupD own v 0
    let child_var_pofs := childPofs.map fun cp => lookupD cp v 0
    let product_of_survival := (child_var_pofs.map fun p => 1 - p).prod
    let child_combined_pof := 1 - product_of_survival
    let combined_survival := (1 - own_pof) * (1 - child_combined_pof)
    (v, 1 - combined_survival)

/-- Top-level PoF: `max(combined.values())` when non-empty, else `0.0`. -/
def pofFromCombined (combined : List (String × ℝ)) : ℝ :=
  (listMax (combined.map Prod.snd)).getD 0

/-- `FragilityComputer._compute_for_component`: leaf computation, recursion
into children, then series aggregation. -/
noncomputable def computeForComponent (hazard : String) (climateVars : List String)
    (gridData : List GridCell) : ComponentNode → ComponentNode
  | .mk core subs =>
    let lc := leafComputation hazard climateVars gridData core.hazards
    let newSubs := subs.attach.map fun s =>
      computeForComponent hazard climateVars gridData s.1
    let childPofs := newSubs.map fun c => c.core.pof_by_var
    let combined := combineStep lc.2 childPofs
    let newCore : NodeCore :=
      { core with
        hazards := lc.1
        pof_by_var := combined
        pof := pofFromCombined combined }
    .mk newCore newSubs
termination_by c => sizeOf c
decreasing_by
  simp only [ComponentNode.mk.sizeOf_spec]
  have h := List.sizeOf_lt_of_mem s.2
  omega

/-- `FragilityComputer.compute_for_tree`: run `_compute_for_component` over
every root of the HBOM tree's `components` list. -/
noncomputable def computeForTree (roots : List ComponentNode) (hazard : String)
    (preparedData : PreparedData) : List ComponentNode :=
  roots.map (computeForComponent hazard preparedData.variables' preparedData.data)

/-- Unfolding equation for `computeForComponent` with the `attach` plumbing
removed. -/
theorem computeForComponent_mk (hazard : String) (climateVars : List String)
    (gridData : List GridCell) (core : NodeCore) (subs : List ComponentNode) :
    computeForComponent hazard climateVars gridData (.mk core subs) =
      (let lc := leafComputation hazard climateVars gridData core.hazards
       let newSubs := subs.map (computeForComponent hazard climateVars gridData)
       let combined := combineStep lc.2 (newSubs.map fun c => c.core.pof_by_var)
       .mk { core with
             hazards := lc.1
             pof_by_var := combined
             pof := pofFromCombined combined } newSubs) := by
  rw [computeForComponent]
  simp only [List.attach_map_val]

/-- Recursion principle matching the engine's post-order traversal. -/
theorem ComponentNode.inductionOn {P : ComponentNode → Prop}
    (h : ∀ core subs, (∀ c ∈ subs, P c) → P (.mk core subs)) :
    ∀ c, P c := by
  have key : ∀ n (c : ComponentNode), sizeOf c ≤ n → P c := by
    intro n
    induction n with
    | zero =>
      intro c hc
      cases c with
      | mk core subs =>
        simp only [ComponentNode.mk.sizeOf_spec] at hc
        omega
    | succ n ih =>
      intro c hc
      cases c with
      | mk core subs =>
        apply h
        intro x hx
        apply ih
        have hlt := List.sizeOf_lt_of_mem hx
        simp only [ComponentNode.mk.sizeOf_spec] at hc
        omega
  intro c
  exact key (sizeOf c) c le_rfl

/-- All nodes of a tree, in pre-order (the traversal order of
`compute_timeseries`'s `_extract_series`). -/
def allNodes : ComponentNode → List ComponentNode
  | .mk core subs =>
    .mk core subs :: (subs.attach.map fun s => allNodes s.1).flatten
termination_by c => sizeOf c
decreasing_by
  simp only [ComponentNode.mk.sizeOf_spec]
  have h := List.sizeOf_lt_of_mem s.2
  omega

theorem allNodes_mk (core : NodeCore) (subs : List ComponentNode) :
    allNodes (.mk core subs) = .mk core subs :: (subs.map allNodes).flatten := by
  rw [allNodes]
  simp only [List.attach_map_val]

/-! ## Time-series extraction (`FragilityComputer.compute_timeseries`)

Python's `max` raises `ValueError` on an empty collection; `Option` models
that exception: `none` is the raising outcome. -/

/-- Evaluate all the `Option`s or fail: the exception propagating through the
surrounding loops. -/
def optionSequence {α : Type} : List (Option α) → Option (List α)
  | [] => some []
  | o :: os => o.bind fun x => (optionSequence os).map fun xs => x :: xs

/-- One timestep of `_extract_series`:
`max(detail["fc_values"][t] if t < len(detail["fc_values"]) else 0.0
     for detail in grids.values())`.
`none` exactly when there is no grid cell at all (Python raises). -/
def maxPofAcrossGrids (grids : List GridCurve) (t : Nat) : Option ℝ :=
  listMax (grids.map fun g =>
    if t < g.fc_values.length then g.fc_values.getD t 0 else 0)

/-- The per-variable PoF series aligned to the time axis. -/
def varSeries (nTimes : Nat) (grids : List GridCurve) : Option (List ℝ) :=
  optionSequence ((List.range nTimes).map (maxPofAcrossGrids grids))

/-- `_extract_series`: this node's entry (when it has any curves for the
hazard), then the children's, in visit order.  `Option.bind`/`Option.map`
thread the `ValueError` of Python's `max` on an empty grid collection. -/
def extractSeries (hazard : String) (nTimes : Nat) :
    ComponentNode → Option (List (String × List (String × List ℝ)))
  | .mk core subs =>
    let curves :=
      match core.hazards.lookup hazard with
      | some b => b.fragility_curves
      | none => []
    let own : Option (List (String × List (String × List ℝ))) :=
      if curves.isEmpty then some []
      else
        (optionSequence (curves.map fun p =>
          (varSeries nTimes p.2).map fun s => (p.1, s))).map
          fun series => [(core.uuid, series)]
    own.bind fun o =>
      (optionSequence (subs.attach.map fun s =>
        extractSeries hazard nTimes s.1)).map fun rest => o ++ rest.flatten
termination_by c => sizeOf c
decreasing_by
  simp only [ComponentNode.mk.sizeOf_spec]
  have h := List.sizeOf_lt_of_mem s.2
  omega

theorem extractSeries_mk (hazard : String) (nTimes : Nat) (core : NodeCore)
    (subs : List ComponentNode) :
    extractSeries hazard nTimes (.mk core subs) =
      (let curves :=
        match core.hazards.lookup hazard with
        | some b => b.fragility_curves
        | none => []
      let own : Option (List (String × List (String × List ℝ))) :=
        if curves.isEmpty then some []
        else
          (optionSequence (curves.map fun p =>
            (varSeries nTimes p.2).map fun s => (p.1, s))).map
            fun series => [(core.uuid, series)]
      own.bind fun o =>
        (optionSequence (subs.map (extractSeries hazard nTimes))).map
          fun rest => o ++ rest.flatten) := by
  rw [extractSeries]
  simp only [List.attach_map_val]

/-- `FragilityComputer.compute_timeseries`: run the full tree computation
first, then extract the flattened `{uuid: {var: series}}` map; `none` is the
`ValueError` Python's empty `max` raises. -/
noncomputable def computeTimeseries (roots : List ComponentNode) (hazard : String)
    (preparedData : PreparedData) :
    Option (List (String × List (String × List ℝ))) :=
  let computed := computeForTree roots hazard preparedData
  (optionSequence
      (computed.map (extractSeries hazard preparedData.times.length))).map
    List.flatten

/-! ## HBOM tree reconstruction (`backend/hbom/hbom_preparers.py`) -/

/-- One fragility-curve document from `fragility_db`. -/
structure CurveDoc where
  component_uuid : Option String
  hazard : Option String
  model : Option String
  parameters : Params
  climate_variable : Option String
  conditions : List (String × String)
  priority : Option ℝ
  provenance_source : Option String

/-- One flat HBOM record from `hbom_baseline`. -/
structure FlatNode where
  uuid : String
  label : String
  asset_type : Option String
  canonical_component_type : Option String
  level : Option Int
  node_path : Option String
  parent_uuid : Option String
  children_uuids : List String
  metadata : Option String

/-- The dict `_prepare_node` builds, before the bookkeeping fields are
stripped. -/
structure PreparedNode where
  uuid : String
  label : String
  component_type : String
  canonical_component_type : Option String
  level : Option Int
  node_path : String
  parent_uuid : Option String
  children_uuids : List String
  metadata : Option String
  hazards : List (String × HazardBinding)

/-- `_prepare_node`. -/
def prepareNode (n : FlatNode) : PreparedNode :=
  { uuid := n.uuid
    label := n.label
    component_type := n.asset_type.getD "unknown"
    canonical_component_type := n.canonical_component_type
    level := n.level
    node_path := n.node_path.getD ""
    parent_uuid := n.parent_uuid
    children_uuids := n.children_uuids
    metadata := n.metadata
    hazards := [] }

/-- The hazard entry `_merge_fragilities` builds from one curve document.
(`fragility_curves := []` models the key being absent until the computer adds
it.) -/
def mkBinding (c : CurveDoc) : HazardBinding :=
  { fragility_model := c.model
    fragility_params := c.parameters
    climate_variable := c.climate_variable
    conditions := c.conditions
    priority := c.priority.getD 0
    source := c.provenance_source.getD "Unknown"
    fragility_curves := [] }

/-- Python-dict assignment `m[k] = v`: replaces in place when the key exists
(keeping its insertion position), appends otherwise. -/
def insertReplace {α : Type} (m : List (String × α)) (k : String) (v : α) :
    List (String × α) :=
  if (m.lookup k).isSome then m.map fun p => if p.1 = k then (k, v) else p
  else m ++ [(k, v)]

/-- `node_map = {node["uuid"]: _prepare_node(node) for node in flat_nodes}`. -/
def buildNodeMap (flat : List FlatNode) : List (String × PreparedNode) :=
  flat.foldl (fun m n => insertReplace m n.uuid (prepareNode n)) []

/-- The loop body of the grouping phase of `_merge_fragilities`: skip a curve
whose `component_uuid` is falsy or absent from the node map, otherwise append
it to its component's group (creating the group on first sight). -/
def groupStep (m : List (String × PreparedNode))
    (acc : List (String × List CurveDoc)) (c : CurveDoc) :
    List (String × List CurveDoc) :=
  match truthy c.component_uuid with
  | none => acc
  | some u =>
    if (m.lookup u).isSome then
      if (acc.lookup u).isSome then
        acc.map fun p => if p.1 = u then (u, p.2 ++ [c]) else p
      else acc ++ [(u, [c])]
    else acc

/-- First phase of `_merge_fragilities`: group the curve documents by
`component_uuid`. -/
def groupByComponent (m : List (String × PreparedNode))
    (curves : List CurveDoc) : List (String × List CurveDoc) :=
  curves.foldl (groupStep m) []

/-- The loop body of the attach phase: keep the first binding per hazard
(`if hazard not in node["hazards"]`). -/
def attachStep (hz : List (String × HazardBinding)) (c : CurveDoc) :
    List (String × HazardBinding) :=
  let h := c.hazard.getD "Unknown"
  if (hz.lookup h).isSome then hz else hz ++ [(h, mkBinding c)]

/-- Second phase of `_merge_fragilities` for one node: walk the node's curve
documents in order. -/
def attachHazards (hazards : List (String × HazardBinding))
    (cs : List CurveDoc) : List (String × HazardBinding) :=
  cs.foldl attachStep hazards

/-- Update of one node of the node map with its attached hazards. -/
def mergeStep (acc : List (String × PreparedNode))
    (g : String × List CurveDoc) : List (String × PreparedNode) :=
  acc.map fun p =>
    if p.1 = g.1 then (g.1, { p.2 with hazards := attachHazards p.2.hazards g.2 })
    else p

/-- `_merge_fragilities`. -/
def mergeFragilities (m : List (String × PreparedNode))
    (curves : List CurveDoc) : List (String × PreparedNode) :=
  (groupByComponent m curves).foldl mergeStep m

/-- The final tree node built from a prepared node (bookkeeping fields
`parent_uuid`/`children_uuids` stripped; `pof`/`pof_by_var` keys absent until
the computer assigns them, modelled by their defaults). -/
def nodeCoreOf (p : PreparedNode) : NodeCore :=
  { uuid := p.uuid
    label := p.label
    component_type := p.component_type
    canonical_component_type := p.canonical_component_type
    level := p.level
    node_path := p.node_path
    metadata := p.metadata
    hazards := p.hazards
    pof_by_var := []
    pof := 0 }

/-- Materialization of the child-linking loop
(`node["subcomponents"] = [node_map[cu] for cu in children_uuids if cu in
node_map]`).  The links are object references in Python; `fuel` bounds the
materialization depth.  `fuel = flat.length` reproduces the linked structure
exactly on acyclic inputs (a simple path never repeats a node); on cyclic
inputs Python builds a cyclic object graph, which an inductive tree cannot
hold, so the materialized view truncates there — theorems about cyclic inputs
below only inspect parts that do not depend on the truncation. -/
def buildTree (m : List (String × PreparedNode)) :
    Nat → PreparedNode → ComponentNode
  | 0, p => .mk (nodeCoreOf p) []
  | fuel + 1, p =>
    .mk (nodeCoreOf p)
      (p.children_uuids.filterMap fun cu => (m.lookup cu).map (buildTree m fuel))

/-- `reconstruct_tree`.  The Python body contains no `raise` and no unguarded
failing operation, so every well-formed input flows to an ordinary `return`;
the `Except` result records that no error outcome exists. -/
def reconstructTree (flat : List FlatNode) (curves : Option (List CurveDoc)) :
    Except String (List ComponentNode) :=
  if flat.isEmpty then .ok []
  else
    let nodeMap := buildNodeMap flat
    let nodeMap :=
      match curves with
      | some cs => if cs.isEmpty then nodeMap else mergeFragilities nodeMap cs
      | none => nodeMap
    let roots := (nodeMap.map Prod.snd).filter fun p => p.parent_uuid.isNone
    .ok (roots.map (buildTree nodeMap flat.length))

/-- `_filter_hazard`: keep only the requested hazard in every node's hazards
dict, recursing through `subcomponents`. -/
def filterHazard (hazard : String) : ComponentNode → ComponentNode
  | .mk core subs =>
    .mk { core with hazards := core.hazards.filter fun p => p.1 = hazard }
      (subs.attach.map fun s => filterHazard hazard s.1)
termination_by c => sizeOf c
decreasing_by
  simp only [ComponentNode.mk.sizeOf_spec]
  have h := List.sizeOf_lt_of_mem s.2
  omega

theorem filterHazard_mk (hazard : String) (core : NodeCore)
    (subs : List ComponentNode) :
    filterHazard hazard (.mk core subs) =
      .mk { core with hazards := core.hazards.filter fun p => p.1 = hazard }
        (subs.map (filterHazard hazard)) := by
  rw [filterHazard]
  simp only [List.attach_map_val]

/-! ## IEEE special values

The fragility arithmetic runs on IEEE doubles; a NaN produced by the
Evaluator flows through the Combiner's `-`/`*`/`max`.  `RVal` models a double
that is either NaN or an ordinary (here: rational) number, with IEEE
propagation: any arithmetic on NaN gives NaN, any comparison with NaN is
false. -/

inductive RVal where
  | nan : RVal
  | fin : ℚ → RVal
deriving DecidableEq

def RVal.sub : RVal → RVal → RVal
  | fin a, fin b => fin (a - b)
  | _, _ => nan

def RVal.mul : RVal → RVal → RVal
  | fin a, fin b => fin (a * b)
  | _, _ => nan

/-- IEEE `>`: false whenever either side is NaN. -/
def RVal.gt : RVal → RVal → Bool
  | fin a, fin b => b < a
  | _, _ => false

/-- `math.prod`, starting from `1` and multiplying left to right. -/
def rprod (l : List RVal) : RVal :=
  l.foldl RVal.mul (RVal.fin 1)

/-- Python `max(xs)`: keep the current element unless a later one compares
strictly greater; raises (`none`) on an empty collection. -/
def rmaxList : List RVal → Option RVal
  | [] => none
  | x :: xs => some (xs.foldl (fun m y => if RVal.gt y m then y else m) x)

def lookupRD (l : List (String × RVal)) (k : String) (d : RVal) : RVal :=
  (l.lookup k).getD d

/-- Step 3 of `_compute_for_component` (the series combination, lines
136–161) on IEEE values: identical text to `combineStep`, with `ℝ` arithmetic
replaced by NaN-propagating `RVal` arithmetic. -/
def combineStepF (own : List (String × RVal))
    (childPofs : List (List (String × RVal))) : List (String × RVal) :=
  (unionVars own childPofs).map fun v =>
    let own_pof := lookupRD own v (.fin 0)
    let child_var_pofs := childPofs.map fun cp => lookupRD cp v (.fin 0)
    let product_of_survival := rprod (child_var_pofs.map fun p => RVal.sub (.fin 1) p)
    let child_combined_pof := RVal.sub (.fin 1) product_of_survival
    let combined_survival :=
      RVal.mul (RVal.sub (.fin 1) own_pof) (RVal.sub (.fin 1) child_combined_pof)
    (v, RVal.sub (.fin 1) combined_survival)

/-- The node's scalar `pof` on IEEE values: `max(combined.values())` when
non-empty, else `0.0`. -/
def pofFromCombinedF (combined : List (String × RVal)) : RVal :=
  (rmaxList (combined.map Prod.snd)).getD (.fin 0)

/-- The `float` branch of `_json_safe` (in `hbom_preparers.py` and
`fragility_router.py`): NaN (and infinity) becomes `None`, ordinary numbers
pass through. -/
def jsonSafeVal : RVal → Option ℚ
  | .nan => none
  | .fin q => some q

/-! ## Association-list and max lemmas -/

theorem lookup_map_self {β : Type} (l : List String) (g : String → β) (v : String)
    (hv : v ∈ l) : (l.map fun x => (x, g x)).lookup v = some (g v) := by
  induction l with
  | nil => cases hv
  | cons a t ih =>
    by_cases h : v = a
    · subst h
      simp [List.lookup]
    · have hm : v ∈ t := by
        cases hv with
        | head => exact absurd rfl h
        | tail _ h2 => exact h2
      have hba : (v == a) = false := beq_false_of_ne h
      simp [List.lookup, hba, ih hm]

theorem foldl_max_mem (x : ℝ) (xs : List ℝ) : xs.foldl max x ∈ x :: xs := by
  induction xs generalizing x with
  | nil => simp
  | cons y ys ih =>
    simp only [List.foldl_cons]
    have h := ih (max x y)
    rcases List.mem_cons.mp h with h1 | h1
    · rw [h1]
      rcases max_choice x y with hm | hm <;> rw [hm] <;> simp
    · simp [h1]

theorem le_foldl_max (x : ℝ) (xs : List ℝ) : ∀ y ∈ x :: xs, y ≤ xs.foldl max x := by
  induction xs generalizing x with
  | nil => intro y hy; simp at hy; simp [hy]
  | cons z zs ih =>
    intro y hy
    simp only [List.foldl_cons]
    have hx : x ≤ zs.foldl max (max x z) :=
      le_trans (le_max_left x z) (ih (max x z) (max x z) (List.mem_cons_self _ _))
    have hz : z ≤ zs.foldl max (max x z) :=
      le_trans (le_max_right x z) (ih (max x z) (max x z) (List.mem_cons_self _ _))
    rcases List.mem_cons.mp hy with h1 | h1
    · exact h1 ▸ hx
    · rcases List.mem_cons.mp h1 with h2 | h2
      · exact h2 ▸ hz
      · exact ih (max x z) y (List.mem_cons_of_mem _ h2)

theorem listMax_mem {l : List ℝ} {m : ℝ} (h : listMax l = some m) : m ∈ l := by
  cases l with
  | nil => cases h
  | cons x xs =>
    simp only [listMax, Option.some.injEq] at h
    subst h
    exact foldl_max_mem x xs

theorem le_listMax {l : List ℝ} {m : ℝ} (h : listMax l = some m) :
    ∀ y ∈ l, y ≤ m := by
  cases l with
  | nil => cases h
  | cons x xs =>
    simp only [listMax, Option.some.injEq] at h
    subst h
    exact le_foldl_max x xs

theorem listMax_isSome {l : List ℝ} (h : l ≠ []) : ∃ m, listMax l = some m := by
  cases l with
  | nil => exact absurd rfl h
  | cons x xs => exact ⟨_, rfl⟩

/-! ## Claim C1: the series combiner -/

/-- The value `combineStep` records for each variable in the union. -/
theorem combineStep_lookup (own : List (String × ℝ))
    (childPofs : List (List (String × ℝ))) (v : String)
    (hv : v ∈ unionVars own childPofs) :
    (combineStep own childPofs).lookup v =
      some (1 - (1 - lookupD own v 0) *
        (1 - (1 - ((childPofs.map fun cp => 1 - lookupD cp v 0).prod)))) := by
  unfold combineStep
  rw [lookup_map_self (unionVars own childPofs) _ v hv]
  simp only [Option.some.injEq, List.map_map, Function.comp_def]

/-- `combineStep` produces exactly the union of variables as its key list. -/
theorem combineStep_keys (own : List (String × ℝ))
    (childPofs : List (List (String × ℝ))) :
    (combineStep own childPofs).map Prod.fst = unionVars own childPofs := by
  unfold combineStep
  rw [List.map_map]
  simp [Function.comp_def]

/-- C1: for every node, the result of `_compute_for_component` satisfies the
reliability-series combination law: `pof_by_var` is the combination — over the
union of the node's own per-variable PoF map and its children's — of
`combined(v) = 1 − (1 − own(v))·(1 − (1 − Π (1 − child(v))))` with `0.0`
defaults, and `pof` is the maximum of the combined values when any exist,
else `0.0`; in particular own PoF `0.3` with children `0.2` and `0.4` yields
`0.664`. -/
theorem C1_series_combiner :
    (∀ (hazard : String) (climateVars : List String) (gridData : List GridCell)
        (core : NodeCore) (subs : List ComponentNode),
      (computeForComponent hazard climateVars gridData (.mk core subs)).core.pof_by_var
          = combineStep (leafComputation hazard climateVars gridData core.hazards).2
            ((subs.map (computeForComponent hazard climateVars gridData)).map
              fun c => c.core.pof_by_var)
        ∧ (computeForComponent hazard climateVars gridData (.mk core subs)).core.pof
          = pofFromCombined
              ((computeForComponent hazard climateVars gridData (.mk core subs)).core.pof_by_var))
    ∧ (∀ (own : List (String × ℝ)) (childPofs : List (List (String × ℝ)))
        (v : String), v ∈ unionVars own childPofs →
      (combineStep own childPofs).lookup v =
        some (1 - (1 - lookupD own v 0) *
          (1 - (1 - ((childPofs.map fun cp => 1 - lookupD cp v 0).prod)))))
    ∧ (∀ combined : List (String × ℝ),
        (combined = [] → pofFromCombined combined = 0)
        ∧ (combined ≠ [] →
            pofFromCombined combined ∈ combined.map Prod.snd
            ∧ ∀ p ∈ combined, p.2 ≤ pofFromCombined combined))
    ∧ lookupD (combineStep [("v", 0.3)] [[("v", 0.2)], [("v", 0.4)]]) "v" 0
        = 0.664 := by
  refine ⟨?_, ?_, ?_, ?_⟩
  · intro hazard climateVars gridData core subs
    rw [computeForComponent_mk]
    exact ⟨rfl, rfl⟩
  · exact combineStep_lookup
  · intro combined
    constructor
    · intro h
      subst h
      rfl
    · intro h
      have hne : combined.map Prod.snd ≠ [] := by
        simpa using h
      obtain ⟨m, hm⟩ := listMax_isSome hne
      unfold pofFromCombined
      rw [hm]
      refine ⟨listMax_mem hm, ?_⟩
      intro p hp
      exact le_listMax hm _ (List.mem_map_of_mem Prod.snd hp)
  · have hv : "v" ∈ unionVars [("v", (0.3:ℝ))] [[("v", 0.2)], [("v", 0.4)]] := by
      simp [unionVars]
    unfold lookupD
    rw [combineStep_lookup _ _ _ hv]
    simp [lookupD, List.lookup]
    norm_num

/-- Witness for C1 at the spec's Scenario 2 inputs. -/
theorem C1_series_combiner_witness :
    ("v" ∈ unionVars [("v", (0.3:ℝ))] [[("v", 0.2)], [("v", 0.4)]])
    ∧ (combineStep [("v", (0.3:ℝ))] [[("v", 0.2)], [("v", 0.4)]]).lookup "v" =
        some (1 - (1 - lookupD [("v", (0.3:ℝ))] "v" 0) *
          (1 - (1 - (([[("v", (0.2:ℝ))], [("v", 0.4)]].map
            fun cp => 1 - lookupD cp "v" 0).prod)))) := by
  constructor
  · simp [unionVars]
  · exact C1_series_combiner.2.1 [("v", (0.3:ℝ))] [[("v", 0.2)], [("v", 0.4)]] "v"
      (by simp [unionVars])

/-! ## Claim C4: series combination never decreases risk -/

theorem prod_mem_unit_interval (l : List ℝ) (h : ∀ x ∈ l, 0 ≤ x ∧ x ≤ 1) :
    0 ≤ l.prod ∧ l.prod ≤ 1 := by
  induction l with
  | nil => simp
  | cons x xs ih =>
    have hx := h x (List.mem_cons_self _ _)
    have hxs := ih fun y hy => h y (List.mem_cons_of_mem _ hy)
    rw [List.prod_cons]
    constructor
    · exact mul_nonneg hx.1 hxs.1
    · nlinarith [hx.1, hx.2, hxs.1, hxs.2]

/-- C4: when the node's own PoF and every child's combined PoF for `v` lie in
`[0,1]`, the combined value is at least both the own PoF and the aggregated
child PoF `1 − Π (1 − child(v))` — series combination never decreases risk. -/
theorem C4_series_combination_bounds (own : List (String × ℝ))
    (childPofs : List (List (String × ℝ))) (v : String)
    (hv : v ∈ unionVars own childPofs)
    (hown : 0 ≤ lookupD own v 0 ∧ lookupD own v 0 ≤ 1)
    (hchild : ∀ cp ∈ childPofs, 0 ≤ lookupD cp v 0 ∧ lookupD cp v 0 ≤ 1) :
    (combineStep own childPofs).lookup v =
      some (1 - (1 - lookupD own v 0) *
        (1 - (1 - ((childPofs.map fun cp => 1 - lookupD cp v 0).prod))))
    ∧ lookupD own v 0
        ≤ 1 - (1 - lookupD own v 0) *
            (1 - (1 - ((childPofs.map fun cp => 1 - lookupD cp v 0).prod)))
    ∧ 1 - ((childPofs.map fun cp => 1 - lookupD cp v 0).prod)
        ≤ 1 - (1 - lookupD own v 0) *
            (1 - (1 - ((childPofs.map fun cp => 1 - lookupD cp v 0).prod))) := by
  refine ⟨combineStep_lookup own childPofs v hv, ?_, ?_⟩
  all_goals
    have hP : 0 ≤ (childPofs.map fun cp => 1 - lookupD cp v 0).prod
        ∧ (childPofs.map fun cp => 1 - lookupD cp v 0).prod ≤ 1 := by
      apply prod_mem_unit_interval
      intro x hx
      obtain ⟨cp, hcp, rfl⟩ := List.mem_map.mp hx
      have := hchild cp hcp
      constructor <;> linarith [this.1, this.2]
  · nlinarith [hown.1, hown.2, hP.1, hP.2]
  · nlinarith [hown.1, hown.2, hP.1, hP.2]

/-- Witness for C4 with own PoF `0.3` and children `0.2`, `0.4`. -/
theorem C4_series_combination_bounds_witness :
    ("v" ∈ unionVars [("v", (0.3:ℝ))] [[("v", 0.2)], [("v", 0.4)]])
    ∧ lookupD [("v", (0.3:ℝ))] "v" 0
        ≤ 1 - (1 - lookupD [("v", (0.3:ℝ))] "v" 0) *
            (1 - (1 - (([[("v", (0.2:ℝ))], [("v", 0.4)]].map
              fun cp => 1 - lookupD cp "v" 0).prod))) := by
  refine ⟨by simp [unionVars], ?_⟩
  exact (C4_series_combination_bounds [("v", (0.3:ℝ))] [[("v", 0.2)], [("v", 0.4)]]
    "v" (by simp [unionVars])
    (by constructor <;> · simp [lookupD, List.lookup]; norm_num)
    (by
      intro cp hcp
      have hcp' : cp = [("v", (0.2:ℝ))] ∨ cp = [("v", (0.4:ℝ))] := by
        simpa using hcp
      rcases hcp' with h | h <;> subst h <;> constructor <;>
        · simp [lookupD, List.lookup]; norm_num)).2.1

/-! ## Claim C5: monotonicity of the distribution evaluator -/

/-- The regime in which the scipy calls in `_compute_distribution_curve`
return ordinary numbers: positive `sigma`/`dispersion` and positive `median`
for the lognormal family, positive `shape`/`scale` for the Weibull family;
the logistic sigmoid is unrestricted. -/
def validParamsFor (model : String) (ps : Params) : Prop :=
  if model = "lognormal" then
    if hasParam ps "mu" ∧ hasParam ps "sigma" then 0 < getParam ps "sigma" 0
    else 0 < getParam ps "dispersion" 0.3 ∧ 0 < getParam ps "median" 100
  else if model = "weibull" then
    0 < getParam ps "shape" 2 ∧ 0 < getParam ps "scale" 100
  else True

theorem lognormalZ_mono (ps : Params) (hps : validParamsFor "lognormal" ps)
    {x1 x2 : ℝ} (hx1 : 0 ≤ x1) (h12 : x1 ≤ x2) :
    lognormalZ ps x1 ≤ lognormalZ ps x2 := by
  have hpos : (0:ℝ) < x1 + 1e-9 := by positivity
  have hlog : Real.log (x1 + 1e-9) ≤ Real.log (x2 + 1e-9) :=
    Real.log_le_log hpos (by linarith)
  rw [validParamsFor, if_pos rfl] at hps
  unfold lognormalZ
  split
  · next hms =>
    rw [if_pos hms] at hps
    exact (div_le_div_right hps).mpr (by linarith)
  · next hms =>
    rw [if_neg hms] at hps
    exact (div_le_div_right hps.1).mpr (by linarith)

theorem weibullCDF_mono (shape scale : ℝ) (hshape : 0 < shape)
    (hscale : 0 < scale) {x1 x2 : ℝ} (h12 : x1 ≤ x2) :
    weibullCDF shape scale x1 ≤ weibullCDF shape scale x2 := by
  by_cases h1 : x1 < 0
  · rw [weibullCDF, if_pos h1]
    exact weibullCDF_nonneg shape scale x2 hscale
  · have h2 : ¬ x2 < 0 := fun h => h1 (lt_of_le_of_lt h12 h)
    rw [weibullCDF, if_neg h1, weibullCDF, if_neg h2]
    have hb1 : 0 ≤ x1 / scale := div_nonneg (not_lt.mp h1) hscale.le
    have hdiv : x1 / scale ≤ x2 / scale := (div_le_div_right hscale).mpr h12
    have hpow : (x1 / scale) ^ shape ≤ (x2 / scale) ^ shape :=
      Real.rpow_le_rpow hb1 hdiv hshape.le
    have he : Real.exp (-((x2 / scale) ^ shape)) ≤
        Real.exp (-((x1 / scale) ^ shape)) := Real.exp_le_exp.mpr (by linarith)
    linarith

/-- C5 (counterexample to the claim as stated): with fixed parameters
`mid_point = 0`, `slope = -1`, the logistic evaluator is strictly decreasing
on the inputs `0 ≤ 1`: PoF(1) < PoF(0). -/
theorem C5_counterexample :
    computeDistributionCurve "logistic" [("mid_point", (0:ℝ)), ("slope", -1)]
        [0, 1]
      = [expit (-1 * ((0:ℝ) - 0)), expit (-1 * ((1:ℝ) - 0))]
    ∧ expit (-1 * ((1:ℝ) - 0)) < expit (-1 * ((0:ℝ) - 0)) := by
  constructor
  · simp [computeDistributionCurve, getParam, List.lookup]
  · have hgt : (1:ℝ) < Real.exp 1 := Real.one_lt_exp_iff.mpr one_pos
    have e0 : (-1:ℝ) * ((0:ℝ) - 0) = 0 := by ring
    have e1 : (-1:ℝ) * ((1:ℝ) - 0) = -1 := by ring
    rw [e0, e1]
    unfold expit
    have hlt : 1 + Real.exp (-(0:ℝ)) < 1 + Real.exp (-(-1:ℝ)) := by
      have : Real.exp (-(0:ℝ)) < Real.exp (-(-1:ℝ)) := by
        rw [neg_zero, neg_neg, Real.exp_zero]
        exact hgt
      linarith
    exact one_div_lt_one_div_of_lt (by positivity) hlt

/-- C5 (amended): for fixed valid parameters — positive `sigma` (resp.
`dispersion` and `median`) for lognormal, positive `shape`/`scale` for
Weibull, non-negative `slope` for logistic — the evaluator's PoF is
non-decreasing in the input intensity (for lognormal, on the non-negative
inputs where the Python arithmetic is NaN-free). -/
theorem C5_amended_monotonicity (ps : Params) (x1 x2 : ℝ) (h12 : x1 ≤ x2) :
    (validParamsFor "lognormal" ps → 0 ≤ x1 →
      ∀ y1 y2, computeDistributionCurve "lognormal" ps [x1] = [y1] →
        computeDistributionCurve "lognormal" ps [x2] = [y2] → y1 ≤ y2)
    ∧ (validParamsFor "weibull" ps →
      ∀ y1 y2, computeDistributionCurve "weibull" ps [x1] = [y1] →
        computeDistributionCurve "weibull" ps [x2] = [y2] → y1 ≤ y2)
    ∧ (0 ≤ getParam ps "slope" 0.5 →
      ∀ y1 y2, computeDistributionCurve "logistic" ps [x1] = [y1] →
        computeDistributionCurve "logistic" ps [x2] = [y2] → y1 ≤ y2) := by
  refine ⟨?_, ?_, ?_⟩
  · intro hps hx1 y1 y2 hy1 hy2
    simp only [computeDistributionCurve, if_pos rfl, if_true, List.map_cons,
      List.map_nil, List.cons.injEq, and_true] at hy1 hy2
    rw [← hy1, ← hy2]
    exact normCDF_mono (lognormalZ_mono ps hps hx1 h12)
  · intro hps y1 y2 hy1 hy2
    rw [validParamsFor] at hps
    simp only [if_neg (by decide : ¬ ("weibull" = "lognormal")), if_pos rfl,
      if_true] at hps
    simp only [computeDistributionCurve,
      if_neg (by decide : ¬ ("weibull" = "lognormal")), if_pos rfl, if_true,
      List.map_cons, List.map_nil, List.cons.injEq, and_true] at hy1 hy2
    rw [← hy1, ← hy2]
    exact weibullCDF_mono _ _ hps.1 hps.2 h12
  · intro hslope y1 y2 hy1 hy2
    simp only [computeDistributionCurve,
      if_neg (by decide : ¬ ("logistic" = "lognormal")),
      if_neg (by decide : ¬ ("logistic" = "weibull")), if_pos rfl, if_true,
      List.map_cons, List.map_nil, List.cons.injEq, and_true] at hy1 hy2
    rw [← hy1, ← hy2]
    exact expit_mono (by nlinarith [hslope])

/-! ## Claim C2: the range invariant -/

def InRange01 (x : ℝ) : Prop := 0 ≤ x ∧ x ≤ 1

theorem lookup_mem {β : Type} {l : List (String × β)} {k : String} {v : β}
    (h : l.lookup k = some v) : (k, v) ∈ l := by
  induction l with
  | nil => cases h
  | cons p t ih =>
    obtain ⟨k', v'⟩ := p
    by_cases hk : k = k'
    · subst hk
      simp [List.lookup] at h
      subst h
      exact List.mem_cons_self _ _
    · have hb : (k == k') = false := beq_false_of_ne hk
      simp [List.lookup, hb] at h
      exact List.mem_cons_of_mem _ (ih h)

/-- The evaluator stays inside `[0,1]` for valid parameters and inputs in the
models' domain. -/
theorem computeDistributionCurve_range (model : String) (ps : Params)
    (xs : List ℝ) (hps : validParamsFor model ps) (hxs : ∀ x ∈ xs, 0 ≤ x) :
    ∀ y ∈ computeDistributionCurve model ps xs, InRange01 y := by
  intro y hy
  unfold computeDistributionCurve at hy
  unfold validParamsFor at hps
  by_cases h1 : model = "lognormal"
  · rw [if_pos h1] at hy
    obtain ⟨x, hx, rfl⟩ := List.mem_map.mp hy
    exact ⟨normCDF_nonneg _, normCDF_le_one _⟩
  · rw [if_neg h1] at hy
    rw [if_neg h1] at hps
    by_cases h2 : model = "weibull"
    · rw [if_pos h2] at hy
      rw [if_pos h2] at hps
      obtain ⟨x, hx, rfl⟩ := List.mem_map.mp hy
      exact ⟨weibullCDF_nonneg _ _ _ hps.2, weibullCDF_le_one _ _ _⟩
    · rw [if_neg h2] at hy
      by_cases h3 : model = "logistic"
      · rw [if_pos h3] at hy
        obtain ⟨x, hx, rfl⟩ := List.mem_map.mp hy
        exact ⟨expit_nonneg _, expit_le_one _⟩
      · rw [if_neg h3] at hy
        obtain ⟨x, hx, rfl⟩ := List.mem_map.mp hy
        exact ⟨le_refl 0, zero_le_one⟩

/-- Validity of one hazard binding as it comes out of reconstruction: valid
distribution parameters and no pre-existing curves. -/
def ValidBinding (b : HazardBinding) : Prop :=
  validParamsFor ((truthy b.fragility_model).getD "") b.fragility_params
  ∧ b.fragility_curves = []

def ValidCore (c : NodeCore) : Prop := ∀ p ∈ c.hazards, ValidBinding p.2

/-- Valid numeric climate input: every series value is a non-negative
intensity. -/
def ValidData (gridData : List GridCell) : Prop :=
  ∀ g ∈ gridData, ∀ p ∈ g.climate, ∀ x ∈ p.2, 0 ≤ x

def CurvesInRange (curves : List (String × List GridCurve)) : Prop :=
  ∀ vc ∈ curves, ∀ g ∈ vc.2,
    InRange01 g.final_pof ∧ ∀ y ∈ g.fc_values, InRange01 y

theorem computeCurvesForVar_range (model : String) (ps : Params)
    (gridData : List GridCell) (varName : String)
    (hps : validParamsFor model ps) (hd : ValidData gridData) :
    ∀ g ∈ computeCurvesForVar model ps gridData varName,
      InRange01 g.final_pof ∧ ∀ y ∈ g.fc_values, InRange01 y := by
  intro g hg
  unfold computeCurvesForVar at hg
  obtain ⟨cell, hcell, rfl⟩ := List.mem_map.mp hg
  dsimp only
  split
  · refine ⟨⟨le_refl 0, zero_le_one⟩, ?_⟩
    intro y hy
    simp only [List.mem_singleton] at hy
    exact hy ▸ ⟨le_refl 0, zero_le_one⟩
  · have hxs : ∀ x ∈ (cell.climate.lookup varName).getD [], 0 ≤ x := by
      cases hlk : cell.climate.lookup varName with
      | none => simp
      | some arr =>
        intro x hx
        rw [Option.getD_some] at hx
        exact hd cell hcell (varName, arr) (lookup_mem hlk) x hx
    have hfc := computeDistributionCurve_range model ps _ hps hxs
    refine ⟨?_, fun y hy => hfc y hy⟩
    dsimp only
    cases hgl : (computeDistributionCurve model ps
        ((cell.climate.lookup varName).getD [])).getLast? with
    | none => exact ⟨le_refl 0, zero_le_one⟩
    | some y =>
      rw [Option.getD_some]
      exact hfc y (List.mem_of_mem_getLast? hgl)

/-! Unfolding equations for `leafComputation`. -/

theorem leafComputation_none (hazard : String) (climateVars : List String)
    (gridData : List GridCell) (hazards : List (String × HazardBinding))
    (h : hazards.lookup hazard = none) :
    leafComputation hazard climateVars gridData hazards = (hazards, []) := by
  unfold leafComputation
  rw [h]

theorem leafComputation_noModel (hazard : String) (climateVars : List String)
    (gridData : List GridCell) (hazards : List (String × HazardBinding))
    (b : HazardBinding) (hb : hazards.lookup hazard = some b)
    (h : truthy b.fragility_model = none) :
    leafComputation hazard climateVars gridData hazards = (hazards, []) := by
  unfold leafComputation
  rw [hb]
  dsimp only
  rw [h]

theorem leafComputation_inherit (hazard : String) (climateVars : List String)
    (gridData : List GridCell) (hazards : List (String × HazardBinding))
    (b : HazardBinding) (hb : hazards.lookup hazard = some b)
    (h : truthy b.fragility_model = some "inherit") :
    leafComputation hazard climateVars gridData hazards = (hazards, []) := by
  unfold leafComputation
  rw [hb]
  dsimp only
  rw [h]
  dsimp only
  rw [if_pos rfl]

theorem leafComputation_model (hazard : String) (climateVars : List String)
    (gridData : List GridCell) (hazards : List (String × HazardBinding))
    (b : HazardBinding) (m : String) (hb : hazards.lookup hazard = some b)
    (hm : truthy b.fragility_model = some m) (hne : m ≠ "inherit") :
    leafComputation hazard climateVars gridData hazards =
      (hazards.map fun p =>
        if p.1 = hazard then
          (hazard, { b with fragility_curves :=
            (applicableVars climateVars b.climate_variable).map fun v =>
              (v, computeCurvesForVar m b.fragility_params gridData v) })
        else p,
       (applicableVars climateVars b.climate_variable).map fun v =>
         (v, (listMax ((computeCurvesForVar m b.fragility_params gridData v).map
           GridCurve.final_pof)).getD 0)) := by
  unfold leafComputation
  rw [hb]
  dsimp only
  rw [hm]
  dsimp only
  rw [if_neg hne]

theorem leafComputation_props (hazard : String) (climateVars : List String)
    (gridData : List GridCell) (hazards : List (String × HazardBinding))
    (hv : ∀ p ∈ hazards, ValidBinding p.2) (hd : ValidData gridData) :
    (∀ p ∈ (leafComputation hazard climateVars gridData hazards).2, InRange01 p.2)
    ∧ (∀ hb ∈ (leafComputation hazard climateVars gridData hazards).1,
        CurvesInRange hb.2.fragility_curves) := by
  have trivialCase :
      leafComputation hazard climateVars gridData hazards = (hazards, []) →
      (∀ p ∈ (leafComputation hazard climateVars gridData hazards).2, InRange01 p.2)
      ∧ (∀ hb ∈ (leafComputation hazard climateVars gridData hazards).1,
          CurvesInRange hb.2.fragility_curves) := by
    intro heq
    rw [heq]
    refine ⟨?_, ?_⟩
    · intro p hp
      cases hp
    intro hb hhb
    rw [(hv hb hhb).2]
    intro vc hvc
    cases hvc
  cases hlk : hazards.lookup hazard with
  | none => exact trivialCase (leafComputation_none _ _ _ _ hlk)
  | some b =>
    cases hmod : truthy b.fragility_model with
    | none => exact trivialCase (leafComputation_noModel _ _ _ _ b hlk hmod)
    | some m =>
      by_cases hinh : m = "inherit"
      · subst hinh
        exact trivialCase (leafComputation_inherit _ _ _ _ b hlk hmod)
      · have hvb := hv (hazard, b) (lookup_mem hlk)
        have hpm : validParamsFor m b.fragility_params := by
          have := hvb.1
          rwa [hmod, Option.getD_some] at this
        rw [leafComputation_model hazard climateVars gridData hazards b m hlk
          hmod hinh]
        constructor
        · intro p hp
          obtain ⟨v, hvmem, rfl⟩ := List.mem_map.mp hp
          dsimp only
          cases hmax : listMax ((computeCurvesForVar m b.fragility_params
              gridData v).map GridCurve.final_pof) with
          | none => exact ⟨le_refl 0, zero_le_one⟩
          | some mx =>
            rw [Option.getD_some]
            have hmem := listMax_mem hmax
            obtain ⟨g, hgmem, rfl⟩ := List.mem_map.mp hmem
            exact (computeCurvesForVar_range m b.fragility_params gridData v
              hpm hd g hgmem).1
        · intro hb' hhb'
          obtain ⟨p, hpmem, rfl⟩ := List.mem_map.mp hhb'
          by_cases hph : p.1 = hazard
          · rw [if_pos hph]
            intro vc hvc
            dsimp only at hvc
            obtain ⟨v, hvmem, rfl⟩ := List.mem_map.mp hvc
            intro g hgmem
            exact computeCurvesForVar_range m b.fragility_params gridData v
              hpm hd g hgmem
          · rw [if_neg hph]
            rw [(hv p hpmem).2]
            intro vc hvc
            cases hvc

theorem lookupD_range (l : List (String × ℝ)) (k : String)
    (h : ∀ p ∈ l, InRange01 p.2) : InRange01 (lookupD l k 0) := by
  unfold lookupD
  cases hlk : l.lookup k with
  | none => exact ⟨le_refl 0, zero_le_one⟩
  | some v =>
    rw [Option.getD_some]
    exact h (k, v) (lookup_mem hlk)

theorem combineStep_range (own : List (String × ℝ))
    (childPofs : List (List (String × ℝ)))
    (hown : ∀ p ∈ own, InRange01 p.2)
    (hch : ∀ cp ∈ childPofs, ∀ p ∈ cp, InRange01 p.2) :
    ∀ p ∈ combineStep own childPofs, InRange01 p.2 := by
  intro p hp
  unfold combineStep at hp
  obtain ⟨v, hvmem, rfl⟩ := List.mem_map.mp hp
  dsimp only
  have hP := prod_mem_unit_interval
    ((childPofs.map fun cp => lookupD cp v 0).map fun p => 1 - p)
    (by
      intro x hx
      obtain ⟨q, hq, rfl⟩ := List.mem_map.mp hx
      obtain ⟨cp, hcp, rfl⟩ := List.mem_map.mp hq
      have := lookupD_range cp v (hch cp hcp)
      exact ⟨by linarith [this.2], by linarith [this.1]⟩)
  have ho := lookupD_range own v hown
  constructor
  · nlinarith [ho.1, ho.2, hP.1, hP.2]
  · nlinarith [ho.1, ho.2, hP.1, hP.2]

theorem pofFromCombined_range (combined : List (String × ℝ))
    (h : ∀ p ∈ combined, InRange01 p.2) : InRange01 (pofFromCombined combined) := by
  unfold pofFromCombined
  cases hmax : listMax (combined.map Prod.snd) with
  | none => exact ⟨le_refl 0, zero_le_one⟩
  | some m =>
    rw [Option.getD_some]
    obtain ⟨p, hpmem, rfl⟩ := List.mem_map.mp (listMax_mem hmax)
    exact h p hpmem

theorem self_mem_allNodes (c : ComponentNode) : c ∈ allNodes c := by
  cases c with
  | mk core subs =>
    rw [allNodes_mk]
    exact List.mem_cons_self _ _

theorem mem_allNodes_of_mem_sub {n sub : ComponentNode} {core : NodeCore}
    {subs : List ComponentNode} (hsub : sub ∈ subs) (hn : n ∈ allNodes sub) :
    n ∈ allNodes (.mk core subs) := by
  rw [allNodes_mk]
  apply List.mem_cons_of_mem
  apply List.mem_flatten.mpr
  exact ⟨allNodes sub, List.mem_map_of_mem _ hsub, hn⟩

/-- The per-node range invariant on a computed node. -/
def NodeInRange (c : NodeCore) : Prop :=
  InRange01 c.pof ∧ (∀ p ∈ c.pof_by_var, InRange01 p.2)
  ∧ ∀ hb ∈ c.hazards, CurvesInRange hb.2.fragility_curves

theorem computeForComponent_range (hazard : String) (climateVars : List String)
    (gridData : List GridCell) (hd : ValidData gridData) :
    ∀ c : ComponentNode, (∀ n ∈ allNodes c, ValidCore n.core) →
      ∀ n ∈ allNodes (computeForComponent hazard climateVars gridData c),
        NodeInRange n.core := by
  intro c
  induction c using ComponentNode.inductionOn with
  | h core subs ih =>
    intro hvalid n hn
    rw [computeForComponent_mk] at hn
    dsimp only at hn
    rw [allNodes_mk] at hn
    rcases List.mem_cons.mp hn with htop | hrest
    · subst htop
      have hcorevalid : ValidCore core := hvalid _ (self_mem_allNodes _)
      have hleaf := leafComputation_props hazard climateVars gridData
        core.hazards hcorevalid hd
      have hchrange : ∀ cp ∈ (subs.map (computeForComponent hazard climateVars
          gridData)).map (fun c => c.core.pof_by_var), ∀ p ∈ cp, InRange01 p.2 := by
        intro cp hcp p hp
        obtain ⟨c', hc', rfl⟩ := List.mem_map.mp hcp
        obtain ⟨sub, hsub, rfl⟩ := List.mem_map.mp hc'
        have hsubvalid : ∀ n' ∈ allNodes sub, ValidCore n'.core := fun n' hn' =>
          hvalid n' (mem_allNodes_of_mem_sub hsub hn')
        have := ih sub hsub hsubvalid _
          (self_mem_allNodes (computeForComponent hazard climateVars gridData sub))
        exact this.2.1 p hp
      have hcomb := combineStep_range _ _ hleaf.1 hchrange
      refine ⟨?_, ?_, ?_⟩
      · exact pofFromCombined_range _ hcomb
      · exact hcomb
      · exact hleaf.2
    · obtain ⟨l, hl, hnl⟩ := List.mem_flatten.mp hrest
      obtain ⟨c', hc', rfl⟩ := List.mem_map.mp hl
      obtain ⟨sub, hsub, rfl⟩ := List.mem_map.mp hc'
      have hsubvalid : ∀ n' ∈ allNodes sub, ValidCore n'.core := fun n' hn' =>
        hvalid n' (mem_allNodes_of_mem_sub hsub hn')
      exact ih sub hsub hsubvalid n hnl

/-- C2: for valid numeric inputs — valid distribution parameters throughout
the tree, fresh (curve-free) bindings, and non-negative climate intensities —
every PoF value the subsystem produces is in `[0,1]`: each `fc_values` entry,
each `final_pof`, each `pof_by_var` entry, and each node's `pof`.  (In the
exact-real embedding this containment holds with no explicit clamping; no NaN
or infinity exists in this regime.) -/
theorem C2_range_invariant :
    (∀ (model : String) (ps : Params) (xs : List ℝ), validParamsFor model ps →
      (∀ x ∈ xs, 0 ≤ x) →
      ∀ y ∈ computeDistributionCurve model ps xs, InRange01 y)
    ∧ ∀ (roots : List ComponentNode) (hazard : String) (pd : PreparedData),
        ValidData pd.data →
        (∀ r ∈ roots, ∀ n ∈ allNodes r, ValidCore n.core) →
        ∀ r ∈ computeForTree roots hazard pd, ∀ n ∈ allNodes r,
          InRange01 n.core.pof
          ∧ (∀ p ∈ n.core.pof_by_var, InRange01 p.2)
          ∧ ∀ hb ∈ n.core.hazards, ∀ vc ∈ hb.2.fragility_curves, ∀ g ∈ vc.2,
              InRange01 g.final_pof ∧ ∀ y ∈ g.fc_values, InRange01 y := by
  refine ⟨computeDistributionCurve_range, ?_⟩
  intro roots hazard pd hd hvalid r hr n hn
  unfold computeForTree at hr
  obtain ⟨r0, hr0, rfl⟩ := List.mem_map.mp hr
  have := computeForComponent_range hazard pd.variables' pd.data hd r0
    (hvalid r0 hr0) n hn
  exact ⟨this.1, this.2.1, this.2.2⟩

/-- Witness for C2: a one-node tree carrying a Weibull binding with
`shape = 2`, `scale = 100`, evaluated on one grid cell. -/
theorem C2_range_invariant_witness :
    (ValidData [⟨[("tas", [10, 20])]⟩]
      ∧ ∀ r ∈ [ComponentNode.mk
          { uuid := "A", label := "A", component_type := "unknown",
            canonical_component_type := none, level := none, node_path := "",
            metadata := none,
            hazards := [("Wind",
              { fragility_model := some "weibull",
                fragility_params := [("shape", 2), ("scale", 100)],
                climate_variable := none, conditions := [], priority := 0,
                source := "Unknown", fragility_curves := [] })],
            pof_by_var := [], pof := 0 } []],
        ∀ n ∈ allNodes r, ValidCore n.core)
    ∧ ∀ r ∈ computeForTree
        [ComponentNode.mk
          { uuid := "A", label := "A", component_type := "unknown",
            canonical_component_type := none, level := none, node_path := "",
            metadata := none,
            hazards := [("Wind",
              { fragility_model := some "weibull",
                fragility_params := [("shape", 2), ("scale", 100)],
                climate_variable := none, conditions := [], priority := 0,
                source := "Unknown", fragility_curves := [] })],
            pof_by_var := [], pof := 0 } []]
        "Wind" ⟨["tas"], ["t0"], [⟨[("tas", [10, 20])]⟩]⟩,
      ∀ n ∈ allNodes r,
        InRange01 n.core.pof
        ∧ (∀ p ∈ n.core.pof_by_var, InRange01 p.2)
        ∧ ∀ hb ∈ n.core.hazards, ∀ vc ∈ hb.2.fragility_curves, ∀ g ∈ vc.2,
            InRange01 g.final_pof ∧ ∀ y ∈ g.fc_values, InRange01 y := by
  have hd : ValidData [⟨[("tas", [10, 20])]⟩] := by
    intro g hg p hp x hx
    simp only [List.mem_singleton] at hg
    subst hg
    simp only [List.mem_singleton] at hp
    subst hp
    simp only [List.mem_cons, List.mem_singleton] at hx
    rcases hx with h | h | h
    · rw [h]; norm_num
    · rw [h]; norm_num
    · cases h
  have hvalid : ∀ r ∈ [ComponentNode.mk
      { uuid := "A", label := "A", component_type := "unknown",
        canonical_component_type := none, level := none, node_path := "",
        metadata := none,
        hazards := [("Wind",
          { fragility_model := some "weibull",
            fragility_params := [("shape", 2), ("scale", 100)],
            climate_variable := none, conditions := [], priority := 0,
            source := "Unknown", fragility_curves := [] })],
        pof_by_var := [], pof := 0 } []],
      ∀ n ∈ allNodes r, ValidCore n.core := by
    intro r hr n hn
    simp only [List.mem_singleton] at hr
    subst hr
    rw [allNodes_mk] at hn
    simp only [List.map_nil, List.flatten_nil, List.mem_singleton] at hn
    subst hn
    intro p hp
    simp only [ComponentNode.core, List.mem_singleton] at hp
    subst hp
    constructor
    · simp only [truthy]
      rw [if_neg (by decide : ¬ ("weibull" = ""))]
      rw [Option.getD_some]
      rw [validParamsFor]
      rw [if_neg (by decide : ¬ ("weibull" = "lognormal")), if_pos rfl]
      constructor <;> simp [getParam, List.lookup]
    · rfl
  exact ⟨⟨hd, hvalid⟩, C2_range_invariant.2 _ "Wind" _ hd hvalid⟩

/-- Witness for the amended C5: logistic with `slope = 1` on inputs `0 ≤ 1`. -/
theorem C5_amended_monotonicity_witness :
    ((0:ℝ) ≤ 1)
    ∧ expit (1 * ((0:ℝ) - 50)) ≤ expit (1 * ((1:ℝ) - 50)) := by
  refine ⟨by norm_num, ?_⟩
  exact (C5_amended_monotonicity [("slope", (1:ℝ))] 0 1 (by norm_num)).2.2
    (by simp [getParam, List.lookup])
    (expit (1 * ((0:ℝ) - 50))) (expit (1 * ((1:ℝ) - 50)))
    (by simp [computeDistributionCurve, getParam, List.lookup])
    (by simp [computeDistributionCurve, getParam, List.lookup])

/-! ## Claim C7: NaN handling in the combiner -/

@[simp] theorem RVal.sub_nan (a : RVal) : RVal.sub a RVal.nan = RVal.nan := by
  cases a <;> rfl

@[simp] theorem RVal.mul_nan (a : RVal) : RVal.mul a RVal.nan = RVal.nan := by
  cases a <;> rfl

theorem foldl_mul_nan (l : List RVal) :
    l.foldl RVal.mul RVal.nan = RVal.nan := by
  induction l with
  | nil => rfl
  | cons x t ih =>
    rw [List.foldl_cons]
    have : RVal.mul RVal.nan x = RVal.nan := by cases x <;> rfl
    rw [this, ih]

theorem rprod_nan {l : List RVal} (h : RVal.nan ∈ l) : rprod l = RVal.nan := by
  obtain ⟨s, t, rfl⟩ := List.append_of_mem h
  unfold rprod
  rw [List.foldl_append, List.foldl_cons, RVal.mul_nan, foldl_mul_nan]

/-- C7 (counterexample to the claim as stated): a parent with no own curve
and one child whose PoF for `"tas"` is NaN gets `pof_by_var["tas"] = NaN` and
`pof = NaN` from the combiner — the NaN is propagated upward, not coerced to
`0.0`; the only sanitization, `_json_safe`, maps it to `None`, not `0.0`. -/
theorem C7_counterexample :
    combineStepF [] [[("tas", RVal.nan)]] = [("tas", RVal.nan)]
    ∧ pofFromCombinedF (combineStepF [] [[("tas", RVal.nan)]]) = RVal.nan
    ∧ jsonSafeVal RVal.nan = none
    ∧ RVal.nan ≠ RVal.fin 0 := by
  decide

/-- C7 (amended): the series combiner performs no NaN detection: whenever any
child's `pof_by_var` holds NaN for a variable, the parent's combined value for
that variable is NaN; NaN is only replaced — by `None`/null, not `0.0` — by
the `_json_safe` boundary sanitizer. -/
theorem C7_amended_nan_propagation (own : List (String × RVal))
    (childPofs : List (List (String × RVal))) (v : String)
    (cp : List (String × RVal)) (hcp : cp ∈ childPofs)
    (hnan : cp.lookup v = some RVal.nan) :
    (combineStepF own childPofs).lookup v = some RVal.nan
    ∧ jsonSafeVal RVal.nan = none := by
  refine ⟨?_, rfl⟩
  have hv : v ∈ unionVars own childPofs := by
    unfold unionVars
    apply List.mem_dedup.mpr
    apply List.mem_append.mpr
    right
    apply List.mem_flatten.mpr
    refine ⟨cp.map Prod.fst, List.mem_map_of_mem _ hcp, ?_⟩
    exact List.mem_map_of_mem Prod.fst (lookup_mem hnan)
  unfold combineStepF
  rw [lookup_map_self (unionVars own childPofs) _ v hv]
  have hlk : lookupRD cp v (.fin 0) = RVal.nan := by
    unfold lookupRD
    rw [hnan, Option.getD_some]
  have hmem : RVal.nan ∈ (childPofs.map fun cp' =>
      lookupRD cp' v (.fin 0)).map fun p => RVal.sub (.fin 1) p := by
    have h1 : RVal.nan ∈ childPofs.map fun cp' => lookupRD cp' v (.fin 0) :=
      hlk ▸ List.mem_map_of_mem _ hcp
    have h2 : RVal.sub (.fin 1) RVal.nan = RVal.nan := RVal.sub_nan _
    exact h2 ▸ List.mem_map_of_mem _ h1
  simp only [rprod_nan hmem, RVal.sub_nan, RVal.mul_nan]

/-- Witness for the amended C7. -/
theorem C7_amended_nan_propagation_witness :
    ([("tas", RVal.nan)] ∈ [[("tas", RVal.nan)], [("tas", RVal.fin (1/2))]]
      ∧ List.lookup "tas" [("tas", RVal.nan)] = some RVal.nan)
    ∧ (combineStepF [("hurs", RVal.fin 1)]
        [[("tas", RVal.nan)], [("tas", RVal.fin (1/2))]]).lookup "tas"
          = some RVal.nan
    ∧ jsonSafeVal RVal.nan = none :=
  ⟨⟨by decide, by decide⟩,
   C7_amended_nan_propagation [("hurs", RVal.fin 1)]
     [[("tas", RVal.nan)], [("tas", RVal.fin (1/2))]] "tas"
     [("tas", RVal.nan)] (by decide) (by decide)⟩

/-! ## Claim C8: cycle handling in reconstruction -/

/-- C8 (counterexample to the claim as stated): on a cyclic two-node input
(`A` and `B` are each other's parent and child), `reconstruct_tree` performs
no cycle detection and raises nothing — it returns normally, here with an
empty root list, since every node has a parent. -/
theorem C8_counterexample :
    reconstructTree
      [{ uuid := "A", label := "A", asset_type := none,
         canonical_component_type := none, level := none, node_path := none,
         parent_uuid := some "B", children_uuids := ["B"], metadata := none },
       { uuid := "B", label := "B", asset_type := none,
         canonical_component_type := none, level := none, node_path := none,
         parent_uuid := some "A", children_uuids := ["A"], metadata := none }]
      none
      = Except.ok [] := by
  rfl

/-- C8 (amended): `reconstruct_tree` contains no raise path at all: every
input — cyclic or acyclic — flows to a normal return. -/
theorem C8_amended_no_raise (flat : List FlatNode)
    (curves : Option (List CurveDoc)) :
    ∃ v, reconstructTree flat curves = Except.ok v := by
  unfold reconstructTree
  split
  · exact ⟨[], rfl⟩
  · exact ⟨_, rfl⟩

/-! ## Claim C9: hazard filtering is a pure per-node hazard pruning -/

/-- The bare tree structure: uuids and child lists. -/
inductive TreeShape where
  | node (uuid : String) (children : List TreeShape)

def shape : ComponentNode → TreeShape
  | .mk core subs => .node core.uuid (subs.attach.map fun s => shape s.1)
termination_by c => sizeOf c
decreasing_by
  simp only [ComponentNode.mk.sizeOf_spec]
  have h := List.sizeOf_lt_of_mem s.2
  omega

theorem shape_mk (core : NodeCore) (subs : List ComponentNode) :
    shape (.mk core subs) = .node core.uuid (subs.map shape) := by
  rw [shape]
  simp only [List.attach_map_val]

/-- C9: `_filter_hazard` leaves the tree structure — every node, its uuid and
its `subcomponents` (order and membership) — and all non-hazard fields
unchanged, while pruning every node's hazards map to exactly the entries for
the requested hazard (empty when the node has no binding for it). -/
theorem C9_filter_hazard_frame (hazard : String) (c : ComponentNode) :
    shape (filterHazard hazard c) = shape c
    ∧ (allNodes (filterHazard hazard c)).map (fun n => n.core.hazards)
        = (allNodes c).map (fun n => n.core.hazards.filter fun p => p.1 = hazard)
    ∧ (allNodes (filterHazard hazard c)).map (fun n => { n.core with hazards := [] })
        = (allNodes c).map (fun n => { n.core with hazards := [] }) := by
  induction c using ComponentNode.inductionOn with
  | h core subs ih =>
    rw [filterHazard_mk]
    refine ⟨?_, ?_, ?_⟩
    · rw [shape_mk, shape_mk]
      congr 1
      rw [List.map_map]
      apply List.map_congr_left
      intro c' hc'
      simp only [Function.comp_apply]
      exact (ih c' hc').1
    · rw [allNodes_mk, allNodes_mk]
      simp only [List.map_cons]
      congr 1
      rw [List.map_flatten, List.map_flatten, List.map_map, List.map_map,
        List.map_map]
      congr 1
      apply List.map_congr_left
      intro c' hc'
      simp only [Function.comp_apply]
      exact (ih c' hc').2.1
    · rw [allNodes_mk, allNodes_mk]
      simp only [List.map_cons]
      congr 1
      rw [List.map_flatten, List.map_flatten, List.map_map, List.map_map,
        List.map_map]
      congr 1
      apply List.map_congr_left
      intro c' hc'
      simp only [Function.comp_apply]
      exact (ih c' hc').2.2

/-! ## Claim C6: first curve per (component, hazard) wins -/

theorem lookup_map_update {β : Type} (l : List (String × β)) (k : String)
    (f : β → β) :
    (l.map fun p => if p.1 = k then (k, f p.2) else p).lookup k
      = (l.lookup k).map f := by
  induction l with
  | nil => rfl
  | cons p t ih =>
    obtain ⟨a, v⟩ := p
    rw [List.map_cons]
    dsimp only
    by_cases h : a = k
    · rw [if_pos h]
      have hb : (k == a) = true := by simp [h]
      simp only [List.lookup, hb, beq_self_eq_true, Option.map_some']
    · rw [if_neg h]
      have hb : (k == a) = false := beq_false_of_ne fun he => h he.symm
      simp only [List.lookup, hb, ih]

theorem lookup_map_update_ne {β : Type} (l : List (String × β)) (k k' : String)
    (f : β → β) (hne : k' ≠ k) :
    (l.map fun p => if p.1 = k then (k, f p.2) else p).lookup k' = l.lookup k' := by
  induction l with
  | nil => rfl
  | cons p t ih =>
    obtain ⟨a, v⟩ := p
    rw [List.map_cons]
    dsimp only
    by_cases h : a = k
    · rw [if_pos h]
      have hb1 : (k' == k) = false := beq_false_of_ne hne
      have hb2 : (k' == a) = false := beq_false_of_ne fun he => hne (he.trans h)
      simp only [List.lookup, hb1, hb2, ih]
    · rw [if_neg h]
      cases hk : k' == a <;> simp only [List.lookup, hk, ih]

theorem lookup_append {β : Type} (l1 l2 : List (String × β)) (k : String) :
    (l1 ++ l2).lookup k = ((l1.lookup k).orElse fun _ => l2.lookup k) := by
  induction l1 with
  | nil => simp [List.lookup]
  | cons p t ih =>
    obtain ⟨a, v⟩ := p
    cases hk : k == a <;> simp [List.lookup, hk, ih]

theorem lookup_isSome_iff_mem_keys {β : Type} (l : List (String × β))
    (k : String) : (l.lookup k).isSome ↔ k ∈ l.map Prod.fst := by
  induction l with
  | nil => simp [List.lookup]
  | cons p t ih =>
    obtain ⟨a, v⟩ := p
    by_cases h : k = a
    · subst h
      simp [List.lookup]
    · have hb : (k == a) = false := beq_false_of_ne h
      simp [List.lookup, hb, ih, h]

theorem find?_filter {α : Type} (l : List α) (p q : α → Bool) :
    (l.filter p).find? q = l.find? fun a => p a && q a := by
  induction l with
  | nil => rfl
  | cons x t ih =>
    cases hp : p x
    · rw [List.filter_cons_of_neg (by simp [hp])]
      simp [List.find?, hp, ih]
    · rw [List.filter_cons_of_pos (by simp [hp])]
      cases hq : q x
      · simp [List.find?, hp, hq, ih]
      · simp [List.find?, hp, hq]

/-- Does a curve document target component `u`? -/
def compMatches (u : String) (c : CurveDoc) : Bool :=
  decide (truthy c.component_uuid = some u)

/-- Does a curve document carry (effective) hazard `h`? -/
def hazMatches (h : String) (c : CurveDoc) : Bool :=
  decide (c.hazard.getD "Unknown" = h)

theorem groupBy_fold_lookup (m : List (String × PreparedNode)) (u : String)
    (hm : (m.lookup u).isSome) :
    ∀ (curves : List CurveDoc) (acc : List (String × List CurveDoc)),
      (curves.foldl (groupStep m) acc).lookup u =
        match acc.lookup u with
        | some g => some (g ++ curves.filter (compMatches u))
        | none =>
          if (curves.filter (compMatches u)).isEmpty then none
          else some (curves.filter (compMatches u)) := by
  intro curves
  induction curves with
  | nil =>
    intro acc
    cases h : acc.lookup u <;> simp [h]
  | cons c t ih =>
    intro acc
    rw [List.foldl_cons]
    cases htr : truthy c.component_uuid with
    | none =>
      have hpred : compMatches u c = false := by simp [compMatches, htr]
      have hfil : (c :: t).filter (compMatches u) = t.filter (compMatches u) := by
        simp [List.filter_cons, hpred]
      have hstep : groupStep m acc c = acc := by simp [groupStep, htr]
      rw [hstep, hfil]
      exact ih acc
    | some w =>
      by_cases hmw : (m.lookup w).isSome
      · by_cases hwu : w = u
        · subst hwu
          have hpred : compMatches w c = true := by simp [compMatches, htr]
          have hfil : (c :: t).filter (compMatches w)
              = c :: t.filter (compMatches w) := by
            simp [List.filter_cons, hpred]
          rw [hfil]
          by_cases hacc : (acc.lookup w).isSome
          · obtain ⟨g, hg⟩ := Option.isSome_iff_exists.mp hacc
            have hstep : groupStep m acc c
                = acc.map fun p => if p.1 = w then (w, p.2 ++ [c]) else p := by
              simp [groupStep, htr, hmw, hacc]
            rw [hstep, ih]
            rw [lookup_map_update acc w fun g => g ++ [c]]
            rw [hg]
            simp
          · have hanone : acc.lookup w = none :=
              Option.not_isSome_iff_eq_none.mp hacc
            have hstep : groupStep m acc c = acc ++ [(w, [c])] := by
              simp [groupStep, htr, hmw, hacc]
            rw [hstep, ih, lookup_append, hanone]
            have hone : List.lookup w [(w, [c])] = some [c] := by
              simp [List.lookup]
            rw [hone]
            simp
        · have hpred : compMatches u c = false := by
            simp [compMatches, htr]
            exact hwu
          have hfil : (c :: t).filter (compMatches u)
              = t.filter (compMatches u) := by
            simp [List.filter_cons, hpred]
          rw [hfil]
          by_cases hacc : (acc.lookup w).isSome
          · have hstep : groupStep m acc c
                = acc.map fun p => if p.1 = w then (w, p.2 ++ [c]) else p := by
              simp [groupStep, htr, hmw, hacc]
            rw [hstep, ih,
              lookup_map_update_ne acc w u (fun g => g ++ [c])
                fun he => hwu he.symm]
          · have hstep : groupStep m acc c = acc ++ [(w, [c])] := by
              simp [groupStep, htr, hmw, hacc]
            rw [hstep, ih, lookup_append]
            have hone : List.lookup u [(w, [c])] = none := by
              have hb : (u == w) = false :=
                beq_false_of_ne fun he => hwu he.symm
              simp [List.lookup, hb]
            rw [hone]
            cases h : acc.lookup u <;> simp [h]
      · have hpred : compMatches u c = false := by
          simp [compMatches, htr]
          exact fun he => hmw (he ▸ hm)
        have hfil : (c :: t).filter (compMatches u)
            = t.filter (compMatches u) := by
          simp [List.filter_cons, hpred]
        have hstep : groupStep m acc c = acc := by
          simp [groupStep, htr, hmw]
        rw [hstep, hfil]
        exact ih acc

theorem attach_fold_lookup (h : String) :
    ∀ (cs : List CurveDoc) (hz : List (String × HazardBinding)),
      (attachHazards hz cs).lookup h =
        ((hz.lookup h).orElse fun _ => (cs.find? (hazMatches h)).map mkBinding) := by
  intro cs
  induction cs with
  | nil =>
    intro hz
    unfold attachHazards
    cases hh : hz.lookup h <;> simp [hh]
  | cons c t ih =>
    intro hz
    have hstep : attachHazards hz (c :: t) = attachHazards (attachStep hz c) t := by
      simp [attachHazards]
    rw [hstep, ih]
    by_cases hin : (hz.lookup (c.hazard.getD "Unknown")).isSome
    · have hstep2 : attachStep hz c = hz := by simp [attachStep, hin]
      rw [hstep2]
      by_cases hch : c.hazard.getD "Unknown" = h
      · subst hch
        obtain ⟨b, hb⟩ := Option.isSome_iff_exists.mp hin
        simp [hb]
      · have hm : hazMatches h c = false := by simp [hazMatches, hch]
        rw [List.find?_cons_of_neg _ (by simp [hm])]
    · have hnone : hz.lookup (c.hazard.getD "Unknown") = none :=
        Option.not_isSome_iff_eq_none.mp hin
      have hstep2 : attachStep hz c = hz ++ [(c.hazard.getD "Unknown", mkBinding c)] := by
        simp [attachStep, hin]
      rw [hstep2, lookup_append]
      by_cases hch : c.hazard.getD "Unknown" = h
      · subst hch
        rw [hnone]
        have hone : List.lookup (c.hazard.getD "Unknown")
            [(c.hazard.getD "Unknown", mkBinding c)] = some (mkBinding c) := by
          simp [List.lookup]
        rw [hone]
        have hm : hazMatches (c.hazard.getD "Unknown") c = true := by
          simp [hazMatches]
        rw [List.find?_cons_of_pos _ (by simp [hm])]
        simp
      · have hone : List.lookup h [(c.hazard.getD "Unknown", mkBinding c)] = none := by
          have hb : (h == c.hazard.getD "Unknown") = false :=
            beq_false_of_ne fun he => hch he.symm
          simp [List.lookup, hb]
        rw [hone]
        have hm : hazMatches h c = false := by simp [hazMatches, hch]
        rw [List.find?_cons_of_neg _ (by simp [hm])]
        cases hh : hz.lookup h <;> simp [hh]

theorem keys_map_update {β : Type} (l : List (String × β)) (k : String)
    (f : β → β) :
    (l.map fun p => if p.1 = k then (k, f p.2) else p).map Prod.fst
      = l.map Prod.fst := by
  rw [List.map_map]
  apply List.map_congr_left
  intro p hp
  by_cases h : p.1 = k <;> simp [h]

theorem groupBy_keys_nodup (m : List (String × PreparedNode)) :
    ∀ (curves : List CurveDoc) (acc : List (String × List CurveDoc)),
      (acc.map Prod.fst).Nodup →
      ((curves.foldl (groupStep m) acc).map Prod.fst).Nodup := by
  intro curves
  induction curves with
  | nil => exact fun acc h => h
  | cons c t ih =>
    intro acc h
    rw [List.foldl_cons]
    apply ih
    cases htr : truthy c.component_uuid with
    | none => simpa [groupStep, htr] using h
    | some w =>
      by_cases hmw : (m.lookup w).isSome
      · by_cases hacc : (acc.lookup w).isSome
        · have hstep : groupStep m acc c
              = acc.map fun p => if p.1 = w then (w, p.2 ++ [c]) else p := by
            simp [groupStep, htr, hmw, hacc]
          rw [hstep, keys_map_update acc w fun g => g ++ [c]]
          exact h
        · have hstep : groupStep m acc c = acc ++ [(w, [c])] := by
            simp [groupStep, htr, hmw, hacc]
          rw [hstep]
          have hw : w ∉ acc.map Prod.fst := fun hmem =>
            hacc ((lookup_isSome_iff_mem_keys acc w).mpr hmem)
          simp [List.nodup_append, h, hw]
      · simpa [groupStep, htr, hmw] using h

theorem merge_fold_lookup :
    ∀ (groups : List (String × List CurveDoc))
      (acc : List (String × PreparedNode)) (u : String),
      (groups.map Prod.fst).Nodup →
      (groups.foldl mergeStep acc).lookup u =
        match groups.lookup u with
        | some cs =>
          (acc.lookup u).map fun n =>
            { n with hazards := attachHazards n.hazards cs }
        | none => acc.lookup u := by
  intro groups
  induction groups with
  | nil =>
    intro acc u _
    simp [List.lookup]
  | cons g rest ih =>
    intro acc u hnd
    obtain ⟨gk, gcs⟩ := g
    rw [List.foldl_cons]
    have hnd2 : gk ∉ rest.map Prod.fst ∧ (rest.map Prod.fst).Nodup := by
      rw [List.map_cons] at hnd
      exact List.nodup_cons.mp hnd
    by_cases huu : u = gk
    · subst huu
      have hrest : rest.lookup u = none := by
        cases h : rest.lookup u with
        | none => rfl
        | some v =>
          exact absurd ((lookup_isSome_iff_mem_keys _ _).mp (by simp [h]))
            hnd2.1
      rw [ih _ u hnd2.2, hrest]
      have hstep : mergeStep acc (u, gcs)
          = acc.map fun p => if p.1 = u
              then (u, { p.2 with hazards := attachHazards p.2.hazards gcs })
              else p := rfl
      rw [hstep,
        lookup_map_update acc u fun n =>
          { n with hazards := attachHazards n.hazards gcs }]
      simp [List.lookup]
    · have hlk : ((gk, gcs) :: rest).lookup u = rest.lookup u := by
        have hb : (u == gk) = false := beq_false_of_ne huu
        simp [List.lookup, hb]
      rw [ih _ u hnd2.2, hlk]
      have hstep : mergeStep acc (gk, gcs)
          = acc.map fun p => if p.1 = gk
              then (gk, { p.2 with hazards := attachHazards p.2.hazards gcs })
              else p := rfl
      rw [hstep,
        lookup_map_update_ne acc gk u
          (fun n => { n with hazards := attachHazards n.hazards gcs }) huu]

/-- C6: for a node with fresh (empty) hazards, the binding recorded for a
hazard is exactly `mkBinding` of the FIRST curve document in input order that
targets this `(component_uuid, hazard)` pair; all later documents for the
pair are ignored, whatever their `priority`/`conditions`. -/
theorem C6_first_curve_wins (m : List (String × PreparedNode))
    (curves : List CurveDoc) (u h : String) (n : PreparedNode)
    (hu : m.lookup u = some n) (hhz : n.hazards = []) :
    ∃ n', (mergeFragilities m curves).lookup u = some n'
      ∧ n'.hazards.lookup h =
          (curves.find? fun c => compMatches u c && hazMatches h c).map
            mkBinding := by
  have hm : (m.lookup u).isSome := by simp [hu]
  have hnd := groupBy_keys_nodup m curves [] (by simp)
  have hmerge := merge_fold_lookup (groupByComponent m curves) m u hnd
  unfold mergeFragilities
  have hgroup := groupBy_fold_lookup m u hm curves []
  have hgnil : (List.lookup u ([] : List (String × List CurveDoc))) = none := rfl
  rw [hgnil] at hgroup
  by_cases hemp : (curves.filter (compMatches u)).isEmpty
  · rw [if_pos hemp] at hgroup
    unfold groupByComponent at hmerge ⊢
    rw [hgroup] at hmerge
    rw [hmerge, hu]
    refine ⟨n, rfl, ?_⟩
    rw [hhz]
    have hfind : curves.find? (fun c => compMatches u c && hazMatches h c)
        = none := by
      rw [← find?_filter curves (compMatches u) (hazMatches h)]
      rw [List.isEmpty_iff.mp hemp]
      rfl
    rw [hfind]
    rfl
  · rw [if_neg hemp] at hgroup
    unfold groupByComponent at hmerge ⊢
    rw [hgroup] at hmerge
    rw [hmerge, hu]
    refine ⟨_, rfl, ?_⟩
    dsimp only
    rw [hhz]
    rw [attach_fold_lookup h (curves.filter (compMatches u)) []]
    rw [find?_filter curves (compMatches u) (hazMatches h)]
    rfl

/-- Witness for C6: two curve documents for the same `("A", "Wind")` pair;
the first (a weibull curve) wins over the second (a logistic curve with
higher priority). -/
theorem C6_first_curve_wins_witness :
    (List.lookup "A"
        [("A", prepareNode
          { uuid := "A", label := "A", asset_type := none,
            canonical_component_type := none, level := none, node_path := none,
            parent_uuid := none, children_uuids := [], metadata := none })]
      = some (prepareNode
          { uuid := "A", label := "A", asset_type := none,
            canonical_component_type := none, level := none, node_path := none,
            parent_uuid := none, children_uuids := [], metadata := none }))
    ∧ ∃ n', (mergeFragilities
        [("A", prepareNode
          { uuid := "A", label := "A", asset_type := none,
            canonical_component_type := none, level := none, node_path := none,
            parent_uuid := none, children_uuids := [], metadata := none })]
        [{ component_uuid := some "A", hazard := some "Wind",
           model := some "weibull", parameters := [], climate_variable := none,
           conditions := [], priority := none, provenance_source := none },
         { component_uuid := some "A", hazard := some "Wind",
           model := some "logistic", parameters := [], climate_variable := none,
           conditions := [], priority := some 99,
           provenance_source := none }]).lookup "A" = some n'
      ∧ n'.hazards.lookup "Wind" =
          ([{ component_uuid := some "A", hazard := some "Wind",
              model := some "weibull", parameters := [],
              climate_variable := none, conditions := [], priority := none,
              provenance_source := none },
            { component_uuid := some "A", hazard := some "Wind",
              model := some "logistic", parameters := [],
              climate_variable := none, conditions := [], priority := some 99,
              provenance_source := none }].find? fun c =>
                compMatches "A" c && hazMatches "Wind" c).map mkBinding := by
  refine ⟨rfl, ?_⟩
  exact C6_first_curve_wins _ _ "A" "Wind" _ rfl rfl

/-! ## Claims C3 and C10: time-series extraction -/

/-- The curves the extraction step reads for a node:
`node.get("hazards", {}).get(hazard, {}).get("fragility_curves", {})`. -/
def curvesFor (n : ComponentNode) (hazard : String) :
    List (String × List GridCurve) :=
  match n.core.hazards.lookup hazard with
  | some b => b.fragility_curves
  | none => []

theorem optionSequence_none {α : Type} :
    ∀ {ls : List (Option α)}, none ∈ ls → optionSequence ls = none := by
  intro ls h
  induction ls with
  | nil => cases h
  | cons o os ih =>
    cases o with
    | none => rfl
    | some x =>
      have h' : none ∈ os := by
        rcases List.mem_cons.mp h with h1 | h1
        · exact Option.noConfusion h1
        · exact h1
      simp [optionSequence, ih h']

theorem optionSequence_map_rel {α β : Type} :
    ∀ (l : List α) (f : α → Option β) (xs : List β),
      optionSequence (l.map f) = some xs →
      xs.length = l.length
      ∧ ∀ (i : Nat) (a : α), l[i]? = some a →
          ∃ x, xs[i]? = some x ∧ f a = some x := by
  intro l
  induction l with
  | nil =>
    intro f xs h
    simp only [List.map_nil, optionSequence, Option.some.injEq] at h
    subst h
    simp
  | cons a t ih =>
    intro f xs h
    rw [List.map_cons] at h
    cases hfa : f a with
    | none =>
      rw [optionSequence, hfa] at h
      rcases hseq : optionSequence (t.map f) with _ | ys <;> rw [hseq] at h <;>
        cases h
    | some x =>
      cases hseq : optionSequence (t.map f) with
      | none =>
        rw [optionSequence, hfa, hseq] at h
        cases h
      | some ys =>
        rw [optionSequence, hfa, hseq] at h
        have hxs : x :: ys = xs := by
          simpa using h
        subst hxs
        have iht := ih f ys hseq
        constructor
        · simp [iht.1]
        · intro i b hb
          cases i with
          | zero =>
            simp only [List.getElem?_cons_zero, Option.some.injEq] at hb
            subst hb
            exact ⟨x, by simp, hfa⟩
          | succ j =>
            simp only [List.getElem?_cons_succ] at hb ⊢
            exact iht.2 j b hb

theorem optionSequence_map_forall {α β : Type} (l : List α) (f : α → Option β)
    (xs : List β) (h : optionSequence (l.map f) = some xs) :
    ∀ a ∈ l, ∃ x ∈ xs, f a = some x := by
  intro a ha
  obtain ⟨i, hi⟩ := List.mem_iff_getElem?.mp ha
  obtain ⟨x, hx1, hx2⟩ := (optionSequence_map_rel l f xs h).2 i a hi
  exact ⟨x, List.mem_iff_getElem?.mpr ⟨i, hx1⟩, hx2⟩

theorem optionSequence_map_rev {α β : Type} (l : List α) (f : α → Option β)
    (xs : List β) (h : optionSequence (l.map f) = some xs) :
    ∀ x ∈ xs, ∃ a ∈ l, f a = some x := by
  intro x hx
  obtain ⟨i, hi⟩ := List.mem_iff_getElem?.mp hx
  have hrel := optionSequence_map_rel l f xs h
  have hilt : i < xs.length := by
    by_contra hge
    rw [List.getElem?_eq_none (le_of_not_lt hge)] at hi
    cases hi
  have hil : i < l.length := by
    rw [← hrel.1]
    exact hilt
  have ha : l[i]? = some l[i] := List.getElem?_eq_getElem hil
  obtain ⟨x', hx1, hx2⟩ := hrel.2 i l[i] ha
  have hxx : x' = x := by
    rw [hi] at hx1
    exact (Option.some.inj hx1).symm
  subst hxx
  exact ⟨l[i], List.mem_iff_getElem?.mpr ⟨i, ha⟩, hx2⟩

theorem varSeries_props (nT : Nat) (grids : List GridCurve) (ser : List ℝ)
    (h : varSeries nT grids = some ser) :
    ser.length = nT ∧ ∀ t, t < nT → ser[t]? = maxPofAcrossGrids grids t := by
  unfold varSeries at h
  have hrel := optionSequence_map_rel (List.range nT) (maxPofAcrossGrids grids)
    ser h
  constructor
  · rw [hrel.1, List.length_range]
  · intro t ht
    have hr : (List.range nT)[t]? = some t := by
      simp [List.getElem?_range, ht]
    obtain ⟨x, hx1, hx2⟩ := hrel.2 t t hr
    rw [hx1, hx2]

theorem optionSequence_map_pairs (nT : Nat)
    (curves : List (String × List GridCurve))
    (series : List (String × List ℝ))
    (h : optionSequence (curves.map fun p =>
        (varSeries nT p.2).map fun s => (p.1, s)) = some series) :
    series.map Prod.fst = curves.map Prod.fst
    ∧ ∀ p ∈ curves, ∃ ser, (p.1, ser) ∈ series ∧ varSeries nT p.2 = some ser := by
  induction curves generalizing series with
  | nil =>
    simp only [List.map_nil, optionSequence, Option.some.injEq] at h
    subst h
    simp
  | cons p t ih =>
    rw [List.map_cons] at h
    cases hv : (varSeries nT p.2).map fun s => (p.1, s) with
    | none =>
      rw [optionSequence, hv] at h
      rcases hseq : optionSequence (t.map fun p =>
          (varSeries nT p.2).map fun s => (p.1, s)) with _ | ys <;>
        rw [hseq] at h <;> cases h
    | some x =>
      cases hseq : optionSequence (t.map fun p =>
          (varSeries nT p.2).map fun s => (p.1, s)) with
      | none =>
        rw [optionSequence, hv, hseq] at h
        cases h
      | some ys =>
        rw [optionSequence, hv, hseq] at h
        have hxs : x :: ys = series := by simpa using h
        subst hxs
        obtain ⟨ser, hser1, hser2⟩ : ∃ ser, varSeries nT p.2 = some ser
            ∧ x = (p.1, ser) := by
          cases hvs : varSeries nT p.2 with
          | none => rw [hvs] at hv; cases hv
          | some s =>
            rw [hvs] at hv
            exact ⟨s, rfl, by simpa using hv.symm⟩
        have iht := ih ys hseq
        constructor
        · rw [List.map_cons, List.map_cons, iht.1, hser2]
        · intro q hq
          rcases List.mem_cons.mp hq with rfl | hq'
          · exact ⟨ser, by rw [hser2]; exact List.mem_cons_self _ _, hser1⟩
          · obtain ⟨ser', hs1, hs2⟩ := iht.2 q hq'
            exact ⟨ser', List.mem_cons_of_mem _ hs1, hs2⟩

/-- `extractSeries` restated through `curvesFor`. -/
theorem extractSeries_eq (hazard : String) (nT : Nat) (core : NodeCore)
    (subs : List ComponentNode) :
    extractSeries hazard nT (.mk core subs) =
      (let curves := curvesFor (.mk core subs) hazard
       let own : Option (List (String × List (String × List ℝ))) :=
         if curves.isEmpty then some []
         else
           (optionSequence (curves.map fun p =>
             (varSeries nT p.2).map fun s => (p.1, s))).map
             fun series => [(core.uuid, series)]
       own.bind fun o =>
         (optionSequence (subs.map (extractSeries hazard nT))).map
           fun rest => o ++ rest.flatten) := by
  rw [extractSeries_mk]
  rfl

/-- What a successful extraction contains: one entry per visited node that
has curves for the hazard, carrying — for each curve variable — a series
aligned to the time axis whose value at `t` is the max across the variable's
grid cells (`0.0` for too-short cells). -/
theorem extract_ok_props (hazard : String) (nT : Nat) :
    ∀ (c : ComponentNode) (out : List (String × List (String × List ℝ))),
      extractSeries hazard nT c = some out →
      (∀ e ∈ out, ∃ n ∈ allNodes c, n.core.uuid = e.1
        ∧ curvesFor n hazard ≠ []
        ∧ e.2.map Prod.fst = (curvesFor n hazard).map Prod.fst
        ∧ ∀ p ∈ curvesFor n hazard, ∃ ser, (p.1, ser) ∈ e.2
            ∧ ser.length = nT
            ∧ ∀ t : Nat, t < nT → ser[t]? = maxPofAcrossGrids p.2 t)
      ∧ (∀ n ∈ allNodes c, curvesFor n hazard ≠ [] →
          ∃ s, (n.core.uuid, s) ∈ out) := by
  intro c
  induction c using ComponentNode.inductionOn with
  | h core subs ih =>
    intro out hout
    rw [extractSeries_eq] at hout
    dsimp only at hout
    cases hseq : optionSequence (subs.map (extractSeries hazard nT)) with
    | none =>
      rw [hseq] at hout
      simp only [Option.map_none'] at hout
      rcases hbind : (if (curvesFor (.mk core subs) hazard).isEmpty then
          some ([] : List (String × List (String × List ℝ)))
        else
          (optionSequence ((curvesFor (.mk core subs) hazard).map fun p =>
            (varSeries nT p.2).map fun s => (p.1, s))).map
            fun series => [(core.uuid, series)]) with _ | o <;>
        rw [hbind] at hout <;> cases hout
    | some rest =>
      rw [hseq] at hout
      have hchild1 : ∀ e ∈ rest.flatten, ∃ n ∈ allNodes (.mk core subs),
          n.core.uuid = e.1
          ∧ curvesFor n hazard ≠ []
          ∧ e.2.map Prod.fst = (curvesFor n hazard).map Prod.fst
          ∧ ∀ p ∈ curvesFor n hazard, ∃ ser, (p.1, ser) ∈ e.2
              ∧ ser.length = nT
              ∧ ∀ t : Nat, t < nT → ser[t]? = maxPofAcrossGrids p.2 t := by
        intro e he
        obtain ⟨l, hl, hel⟩ := List.mem_flatten.mp he
        obtain ⟨sub, hsub, hfsub⟩ := optionSequence_map_rev _ _ _ hseq l hl
        obtain ⟨n, hn, hprops⟩ := ((ih sub hsub) l hfsub).1 e hel
        exact ⟨n, mem_allNodes_of_mem_sub hsub hn, hprops⟩
      have hchild2 : ∀ sub ∈ subs, ∀ n ∈ allNodes sub,
          curvesFor n hazard ≠ [] → ∃ s, (n.core.uuid, s) ∈ rest.flatten := by
        intro sub hsub n hnl hcur
        obtain ⟨lout, hlout, hfl⟩ := optionSequence_map_forall _ _ _ hseq sub hsub
        obtain ⟨s, hs⟩ := ((ih sub hsub) lout hfl).2 n hnl hcur
        exact ⟨s, List.mem_flatten.mpr ⟨lout, hlout, hs⟩⟩
      by_cases hemp : (curvesFor (.mk core subs) hazard).isEmpty
      · rw [if_pos hemp] at hout
        simp only [Option.some_bind, Option.map_some', List.nil_append,
          Option.some.injEq] at hout
        subst hout
        constructor
        · exact hchild1
        · intro n hn hcur
          rw [allNodes_mk] at hn
          rcases List.mem_cons.mp hn with rfl | hrest
          · exact absurd (List.isEmpty_iff.mp hemp) hcur
          · obtain ⟨l, hl, hnl⟩ := List.mem_flatten.mp hrest
            obtain ⟨sub, hsub, rfl⟩ := List.mem_map.mp hl
            exact hchild2 sub hsub n hnl hcur
      · rw [if_neg hemp] at hout
        cases hser : optionSequence ((curvesFor (.mk core subs) hazard).map
            fun p => (varSeries nT p.2).map fun s => (p.1, s)) with
        | none =>
          rw [hser] at hout
          cases hout
        | some series =>
          rw [hser] at hout
          simp only [Option.map_some', Option.some_bind, List.cons_append,
            List.nil_append, Option.some.injEq] at hout
          subst hout
          have hpairs := optionSequence_map_pairs nT _ series hser
          constructor
          · intro e he
            rcases List.mem_cons.mp he with rfl | he'
            · refine ⟨.mk core subs, self_mem_allNodes _, rfl, ?_, ?_, ?_⟩
              · intro hnil
                rw [hnil] at hemp
                exact hemp rfl
              · exact hpairs.1
              · intro p hp
                obtain ⟨ser, hser1, hser2⟩ := hpairs.2 p hp
                have hprops := varSeries_props nT p.2 ser hser2
                exact ⟨ser, hser1, hprops.1, hprops.2⟩
            · exact hchild1 e he'
          · intro n hn hcur
            rw [allNodes_mk] at hn
            rcases List.mem_cons.mp hn with rfl | hrest2
            · exact ⟨series, List.mem_cons_self _ _⟩
            · obtain ⟨l, hl, hnl⟩ := List.mem_flatten.mp hrest2
              obtain ⟨sub, hsub, rfl⟩ := List.mem_map.mp hl
              obtain ⟨s, hs⟩ := hchild2 sub hsub n hnl hcur
              exact ⟨s, List.mem_cons_of_mem _ hs⟩

/-- A failing extraction anywhere in a subtree fails the whole walk. -/
theorem extractSeries_none_of_sub (hazard : String) (nT : Nat) :
    ∀ (c n : ComponentNode), n ∈ allNodes c →
      extractSeries hazard nT n = none → extractSeries hazard nT c = none := by
  intro c
  induction c using ComponentNode.inductionOn with
  | h core subs ih =>
    intro n hn hnone
    rw [allNodes_mk] at hn
    rcases List.mem_cons.mp hn with rfl | hrest
    · exact hnone
    · obtain ⟨l, hl, hnl⟩ := List.mem_flatten.mp hrest
      obtain ⟨sub, hsub, rfl⟩ := List.mem_map.mp hl
      have hsubnone := ih sub hsub n hnl hnone
      rw [extractSeries_eq]
      dsimp only
      have hseq : optionSequence (subs.map (extractSeries hazard nT)) = none :=
        optionSequence_none (hsubnone ▸ List.mem_map_of_mem _ hsub)
      rw [hseq]
      simp

/-- `_compute_for_component` rewrites nodes in place: the computed tree's
node set is the image of the original's. -/
theorem mem_allNodes_compute (hazard : String) (climateVars : List String)
    (gridData : List GridCell) :
    ∀ (c n : ComponentNode), n ∈ allNodes c →
      computeForComponent hazard climateVars gridData n
        ∈ allNodes (computeForComponent hazard climateVars gridData c) := by
  intro c
  induction c using ComponentNode.inductionOn with
  | h core subs ih =>
    intro n hn
    rw [allNodes_mk] at hn
    rcases List.mem_cons.mp hn with rfl | hrest
    · exact self_mem_allNodes _
    · obtain ⟨l, hl, hnl⟩ := List.mem_flatten.mp hrest
      obtain ⟨sub, hsub, rfl⟩ := List.mem_map.mp hl
      have hmem := ih sub hsub n hnl
      rw [computeForComponent_mk]
      exact mem_allNodes_of_mem_sub (List.mem_map_of_mem _ hsub) hmem

/-- C3: when `compute_timeseries` returns a result map, the map is the
flattened extraction of the fully computed tree (the computation runs first);
it contains an entry exactly for each visited node with at least one
fragility curve for the hazard (others are omitted, not zero-filled); and
each entry carries, for exactly the node's curve variables, a series aligned
to the dataset's times whose value at index `t` is the maximum of
`fc_values[t]` across that variable's grid cells, `0.0` standing in for any
cell shorter than `t+1`. -/
theorem C3_timeseries_extraction (roots : List ComponentNode) (hazard : String)
    (pd : PreparedData) (m : List (String × List (String × List ℝ)))
    (h : computeTimeseries roots hazard pd = some m) :
    (∃ ls, optionSequence ((computeForTree roots hazard pd).map
        (extractSeries hazard pd.times.length)) = some ls ∧ m = ls.flatten)
    ∧ (∀ e ∈ m, ∃ r ∈ computeForTree roots hazard pd, ∃ n ∈ allNodes r,
        n.core.uuid = e.1 ∧ curvesFor n hazard ≠ []
        ∧ e.2.map Prod.fst = (curvesFor n hazard).map Prod.fst
        ∧ ∀ p ∈ curvesFor n hazard, ∃ ser, (p.1, ser) ∈ e.2
            ∧ ser.length = pd.times.length
            ∧ ∀ t : Nat, t < pd.times.length →
                ser[t]? = maxPofAcrossGrids p.2 t)
    ∧ (∀ r ∈ computeForTree roots hazard pd, ∀ n ∈ allNodes r,
        curvesFor n hazard ≠ [] → ∃ s, (n.core.uuid, s) ∈ m) := by
  unfold computeTimeseries at h
  dsimp only at h
  cases hls : optionSequence ((computeForTree roots hazard pd).map
      (extractSeries hazard pd.times.length)) with
  | none =>
    rw [hls] at h
    cases h
  | some ls =>
    rw [hls] at h
    simp only [Option.map_some', Option.some.injEq] at h
    subst h
    refine ⟨⟨ls, rfl, rfl⟩, ?_, ?_⟩
    · intro e he
      obtain ⟨l, hl, hel⟩ := List.mem_flatten.mp he
      obtain ⟨r, hr, hfr⟩ := optionSequence_map_rev _ _ _ hls l hl
      obtain ⟨n, hn, hprops⟩ :=
        (extract_ok_props hazard pd.times.length r l hfr).1 e hel
      exact ⟨r, hr, n, hn, hprops⟩
    · intro r hr n hn hcur
      obtain ⟨l, hl, hfr⟩ := optionSequence_map_forall _ _ _ hls r hr
      obtain ⟨s, hs⟩ :=
        (extract_ok_props hazard pd.times.length r l hfr).2 n hn hcur
      exact ⟨s, List.mem_flatten.mpr ⟨l, hl, hs⟩⟩

/-- The curves of a computed node carrying a truthy, non-inherit model. -/
theorem curvesFor_compute_model (hazard : String) (climateVars : List String)
    (gridData : List GridCell) (core : NodeCore) (subs : List ComponentNode)
    (b : HazardBinding) (m : String)
    (hb : core.hazards.lookup hazard = some b)
    (hm : truthy b.fragility_model = some m) (hmne : m ≠ "inherit") :
    curvesFor (computeForComponent hazard climateVars gridData (.mk core subs))
        hazard
      = (applicableVars climateVars b.climate_variable).map fun v =>
          (v, computeCurvesForVar m b.fragility_params gridData v) := by
  rw [computeForComponent_mk]
  unfold curvesFor
  dsimp only [ComponentNode.core]
  rw [leafComputation_model hazard climateVars gridData core.hazards b m hb hm
    hmne]
  dsimp only
  rw [lookup_map_update core.hazards hazard fun _ =>
    { b with fragility_curves :=
      (applicableVars climateVars b.climate_variable).map fun v =>
        (v, computeCurvesForVar m b.fragility_params gridData v) }]
  rw [hb]
  rfl

/-- Extraction fails on a node whose curves are non-empty but whose per-variable
series computation fails. -/
theorem extractSeries_none_of_curves (hazard : String) (nT : Nat)
    (c : ComponentNode) (hcur : curvesFor c hazard ≠ [])
    (hfail : optionSequence ((curvesFor c hazard).map fun p =>
        (varSeries nT p.2).map fun s => (p.1, s)) = none) :
    extractSeries hazard nT c = none := by
  cases c with
  | mk core subs =>
    rw [extractSeries_eq]
    dsimp only
    rw [if_neg fun h => hcur (List.isEmpty_iff.mp h)]
    rw [hfail]
    simp

/-- C10: with a non-empty time axis, an empty grid-cell list, and some node
carrying an applicable non-inherit fragility binding for the hazard,
`compute_timeseries` raises (`max()` over no grid cells) instead of
returning a map. -/
theorem C10_empty_grid_timeseries_raises (roots : List ComponentNode)
    (hazard : String) (pd : PreparedData) (r n : ComponentNode)
    (b : HazardBinding) (m : String)
    (hdata : pd.data = []) (htimes : pd.times ≠ [])
    (hr : r ∈ roots) (hn : n ∈ allNodes r)
    (hb : n.core.hazards.lookup hazard = some b)
    (hm : truthy b.fragility_model = some m) (hmne : m ≠ "inherit")
    (happ : applicableVars pd.variables' b.climate_variable ≠ []) :
    computeTimeseries roots hazard pd = none := by
  have hnT : 0 < pd.times.length := List.length_pos.mpr htimes
  obtain ⟨ncore, nsubs⟩ := n
  have hb' : ncore.hazards.lookup hazard = some b := hb
  have hcfor := curvesFor_compute_model hazard pd.variables' pd.data ncore
    nsubs b m hb' hm hmne
  have hccv : ∀ v, computeCurvesForVar m b.fragility_params pd.data v = [] := by
    intro v
    rw [hdata]
    rfl
  have hvs : varSeries pd.times.length ([] : List GridCurve) = none := by
    unfold varSeries
    apply optionSequence_none
    have h0 : (0 : Nat) ∈ List.range pd.times.length :=
      List.mem_range.mpr hnT
    have hmax : maxPofAcrossGrids [] 0 = none := rfl
    exact hmax ▸ List.mem_map_of_mem _ h0
  have hcur : curvesFor (computeForComponent hazard pd.variables' pd.data
      (.mk ncore nsubs)) hazard ≠ [] := by
    rw [hcfor]
    simpa using happ
  have hfail : optionSequence ((curvesFor (computeForComponent hazard
      pd.variables' pd.data (.mk ncore nsubs)) hazard).map fun p =>
        (varSeries pd.times.length p.2).map fun s => (p.1, s)) = none := by
    rw [hcfor]
    apply optionSequence_none
    obtain ⟨v0, hv0⟩ := List.exists_mem_of_ne_nil _ happ
    have hval : ((fun p => (varSeries pd.times.length p.2).map
        fun s => ((p.1 : String), s))
          ((fun v => (v, computeCurvesForVar m b.fragility_params pd.data v)) v0))
        = none := by
      dsimp only
      rw [hccv v0, hvs]
      rfl
    exact hval ▸ List.mem_map_of_mem _ (List.mem_map_of_mem _ hv0)
  have hnodefail := extractSeries_none_of_curves hazard pd.times.length _
    hcur hfail
  have hrootfail : extractSeries hazard pd.times.length
      (computeForComponent hazard pd.variables' pd.data r) = none :=
    extractSeries_none_of_sub hazard pd.times.length _ _
      (mem_allNodes_compute hazard pd.variables' pd.data r (.mk ncore nsubs) hn)
      hnodefail
  unfold computeTimeseries
  dsimp only
  have hmem : none ∈ (computeForTree roots hazard pd).map
      (extractSeries hazard pd.times.length) := by
    have h1 : computeForComponent hazard pd.variables' pd.data r
        ∈ computeForTree roots hazard pd := List.mem_map_of_mem _ hr
    exact hrootfail ▸ List.mem_map_of_mem _ h1
  rw [optionSequence_none hmem]
  rfl

/-- Witness for C3: one node with an (unknown-model) binding, one grid cell,
two timesteps; the result maps `"A"` to the aligned zero series. -/
theorem C3_timeseries_extraction_witness :
    computeTimeseries
      [ComponentNode.mk
        { uuid := "A", label := "A", component_type := "unknown",
          canonical_component_type := none, level := none, node_path := "",
          metadata := none,
          hazards := [("Wind",
            { fragility_model := some "foo", fragility_params := [],
              climate_variable := none, conditions := [], priority := 0,
              source := "Unknown", fragility_curves := [] })],
          pof_by_var := [], pof := 0 } []]
      "Wind" ⟨["tas"], ["t0", "t1"], [⟨[("tas", [10, 20])]⟩]⟩
      = some [("A", [("tas", [(0:ℝ), 0])])]
    ∧ ∃ ls, optionSequence ((computeForTree
        [ComponentNode.mk
          { uuid := "A", label := "A", component_type := "unknown",
            canonical_component_type := none, level := none, node_path := "",
            metadata := none,
            hazards := [("Wind",
              { fragility_model := some "foo", fragility_params := [],
                climate_variable := none, conditions := [], priority := 0,
                source := "Unknown", fragility_curves := [] })],
            pof_by_var := [], pof := 0 } []]
        "Wind" ⟨["tas"], ["t0", "t1"], [⟨[("tas", [10, 20])]⟩]⟩).map
          (extractSeries "Wind" (["t0", "t1"] : List String).length))
        = some ls
      ∧ [("A", [("tas", [(0:ℝ), 0])])] = ls.flatten := by
  have hts : computeTimeseries
      [ComponentNode.mk
        { uuid := "A", label := "A", component_type := "unknown",
          canonical_component_type := none, level := none, node_path := "",
          metadata := none,
          hazards := [("Wind",
            { fragility_model := some "foo", fragility_params := [],
              climate_variable := none, conditions := [], priority := 0,
              source := "Unknown", fragility_curves := [] })],
          pof_by_var := [], pof := 0 } []]
      "Wind" ⟨["tas"], ["t0", "t1"], [⟨[("tas", [10, 20])]⟩]⟩
      = some [("A", [("tas", [(0:ℝ), 0])])] := by
    simp [computeTimeseries, computeForTree, computeForComponent_mk,
      leafComputation, truthy, applicableVars, computeCurvesForVar,
      computeDistributionCurve, listMax, combineStep, unionVars, lookupD,
      pofFromCombined, extractSeries_mk, optionSequence, varSeries,
      maxPofAcrossGrids, getParam, List.lookup]
  exact ⟨hts, (C3_timeseries_extraction _ "Wind" _ _ hts).1⟩

/-- Witness for C10: a one-node tree with a Weibull binding, one dataset
variable, one timestep, and no grid cells. -/
theorem C10_empty_grid_timeseries_raises_witness :
    ((⟨["tas"], ["t0"], []⟩ : PreparedData).data = []
      ∧ (⟨["tas"], ["t0"], []⟩ : PreparedData).times ≠ []
      ∧ applicableVars ["tas"] none ≠ [])
    ∧ computeTimeseries
        [ComponentNode.mk
          { uuid := "A", label := "A", component_type := "unknown",
            canonical_component_type := none, level := none, node_path := "",
            metadata := none,
            hazards := [("Wind",
              { fragility_model := some "weibull", fragility_params := [],
                climate_variable := none, conditions := [], priority := 0,
                source := "Unknown", fragility_curves := [] })],
            pof_by_var := [], pof := 0 } []]
        "Wind" ⟨["tas"], ["t0"], []⟩ = none := by
  refine ⟨⟨rfl, by decide, by decide⟩, ?_⟩
  exact C10_empty_grid_timeseries_raises _ "Wind" _ _ _ _ "weibull"
    rfl (by decide) (List.mem_singleton.mpr rfl) (self_mem_allNodes _)
    rfl rfl (by decide) (by decide)

end Acclimate
